import Mathlib

/-! # runG4goupil: command-line driver of the Geant4/goupil validation

A shallow embedding of `src/runG4goupil.cpp`.

Conventions of the embedding.

* A C string (`char*`) is the list of its characters before the terminator; a
  `char` array is the list of all its cells, terminator and trailing cells
  included.
* `argv` is the list of its `argc` strings; the cell `argv[argc]` is the null
  pointer, which is why the value of a flag is an `Option`.
* `double` is an IEEE-754 binary64 value given by its three fields, `long` is
  an `Int` (the range is enforced by `std::stol`, which is a parameter). The
  bytes of the header are those of the x86-64 ABI: `long` and `double` take 8
  bytes each, least significant byte first, and `struct header` has no padding.
* What the C++ standard leaves undefined (a `strcpy` past the end of its
  destination, a null pointer used as a string) and the exceptions of
  `std::stod` / `std::stol`, which nothing catches, stop the run with a
  `Fault`.
* Everything the file takes from outside (the contents of the stack before the
  constructor runs, `std::stod`, `std::stol`, `fopen`, the Geant4 engine and
  the arithmetic of `G4double`) is a field of `World` or `Engine`.
-/

namespace G4Goupil

/-! ## Strings and arrays of `char` -/

/-- A C string: its characters before the terminator. -/
abbrev CStr := List Char

/-- The string terminator. -/
def NUL : Char := Char.ofNat 0

/-- The test `strcmp(a, b) == 0`. -/
def strcmpEq (a b : CStr) : Bool := decide (a = b)

/-- The string held by a `char` array: the cells before the first terminator. -/
def cstr (a : List Char) : CStr := a.takeWhile (fun c => c != NUL)

/-- An array of `n` cells initialised from a string literal: the literal, then
zeros (`help("")`, `outputFile("...")` in the constructor). -/
def arrayInit (n : Nat) (s : CStr) : List Char := s ++ List.replicate (n - s.length) NUL

/-- The cells of `dst` after `strcpy(dst, src)` when the copy fits: the
characters of `src`, the terminator, and the former cells of `dst` behind. -/
def strcpyCells (dst : List Char) (src : CStr) : List Char :=
  src ++ NUL :: dst.drop (src.length + 1)

/-- The arrays of `struct parameters`. -/
inductive Field
  | help
  | model
  | outputFile
deriving DecidableEq, Repr

/-- What stops a run before `main` returns. -/
inductive Fault
  /-- The null pointer `argv[argc]` was used as a string. -/
  | nullArgument
  /-- A `strcpy` of `needed` bytes into an array of `size` bytes. -/
  | overflow (field : Field) (needed size : Nat)
  /-- The conversion `std::stod` or `std::stol` threw. -/
  | invalidNumber
  /-- The stream of the cross-section file is null. -/
  | nullStream
deriving DecidableEq, Repr

/-- The call `strcpy(dst, src)` into the array `field`: `src.length + 1` bytes
are written, which must fit. -/
def strcpy (field : Field) (dst : List Char) (src : CStr) : Except Fault (List Char) :=
  if src.length + 1 ≤ dst.length then .ok (strcpyCells dst src)
  else .error (.overflow field (src.length + 1) dst.length)

/-! ## Numbers -/

/-- An IEEE-754 binary64 value: sign bit, biased exponent (11 bits), fraction
(52 bits). -/
structure Double where
  sign : Bool
  expo : Nat
  frac : Nat
deriving DecidableEq, Repr

/-- The literal `1` converted to `double`. -/
def Double.one : Double := ⟨false, 1023, 0⟩

/-- Not a number: the exponent is all ones and the fraction is not zero. -/
def Double.isNaN (d : Double) : Bool := d.expo == 2047 && d.frac != 0

/-- Plus or minus zero. -/
def Double.isZero (d : Double) : Bool := d.expo == 0 && d.frac == 0

/-- The comparison `d <= 0`: false on a NaN, else true on the zeros and on
every value whose sign bit is set. -/
def Double.leZero (d : Double) : Bool := !d.isNaN && (d.sign || d.isZero)

/-- The 64 bits of a `double`. -/
def Double.bits (d : Double) : Nat :=
  (if d.sign then 2 ^ 63 else 0) + (d.expo % 2 ^ 11) * 2 ^ 52 + d.frac % 2 ^ 52

/-- The `k` bytes of `n`, least significant first. -/
def leBytes (k n : Nat) : List Char :=
  (List.range k).map (fun j => Char.ofNat (n / 256 ^ j % 256))

/-- The 8 bytes of a `long`, two's complement. -/
def longBytes (z : Int) : List Char := leBytes 8 (z % 2 ^ 64).toNat

/-! ## The records -/

/-- The record `struct header`. -/
structure header where
  /-- The cells of `char model[32]`. -/
  model : List Char
  energy : Double
  events : Int
deriving DecidableEq, Repr

/-- The record `struct parameters`. -/
structure parameters where
  /-- The cells of `char help[20]`. -/
  help : List Char
  header : header
  /-- The cells of `char outputFile[255]`. -/
  outputFile : List Char
deriving DecidableEq, Repr

/-- The object representation of `struct header`, `sizeof(header)` = 48 bytes:
what `fwrite(&params.header, sizeof(params.header), 1, stream)` writes. -/
def headerBytes (h : header) : List Char :=
  h.model ++ leBytes 8 h.energy.bits ++ longBytes h.events

/-- What the file takes from its environment before the engine starts. -/
structure World where
  /-- The bytes found where `header.model` is allocated: the constructor
  leaves `header` uninitialised before its `strcpy`. -/
  stack : Nat → Char
  /-- The conversion `std::stod`; `none` when it throws. -/
  stod : CStr → Option Double
  /-- The conversion `std::stol`; `none` when it throws. -/
  stol : CStr → Option Int
  /-- Whether `fopen` of this path succeeds. -/
  canOpen : CStr → Bool

/-- The constructor `parameters::parameters()`. -/
def parameters.init (stack : Nat → Char) : parameters :=
  { help := arrayInit 20 "".toList
    header :=
      { model := strcpyCells ((List.range 32).map stack) "standard".toList
        energy := Double.one
        events := 1000000 }
    outputFile := arrayInit 255 "geant4-goupil-validation.bin".toList }

/-! ## `getParams` -/

/-- The result of `getParams`. -/
inductive Parsed
  | ok (params : parameters)
  | fault (f : Fault)
deriving DecidableEq, Repr

/-- A run of (a part of) `getParams`: the indices of `argv` it read, in order,
and what it produced. -/
structure Run where
  reads : List Nat
  result : Parsed
deriving DecidableEq, Repr

/-- Sequencing: the second part runs on the record the first part produced,
and not at all after a fault. -/
def Run.andThen (r : Run) (k : parameters → Run) : Run :=
  match r.result with
  | .ok p => ⟨r.reads ++ (k p).reads, (k p).result⟩
  | .fault f => ⟨r.reads, .fault f⟩

/-- The test `strcmp(argv[i], "-h") == 0 || strcmp(argv[i], "--help") == 0`. -/
def isHelp (flag : CStr) : Bool := strcmpEq flag "-h".toList || strcmpEq flag "--help".toList

/-- The test `strcmp(argv[i], "-m") == 0 || strcmp(argv[i], "--model") == 0`. -/
def isModel (flag : CStr) : Bool := strcmpEq flag "-m".toList || strcmpEq flag "--model".toList

/-- The test `strcmp(argv[i], "-e") == 0 || strcmp(argv[i], "--energy") == 0`. -/
def isEnergy (flag : CStr) : Bool := strcmpEq flag "-e".toList || strcmpEq flag "--energy".toList

/-- The test `strcmp(argv[i], "-n") == 0 || strcmp(argv[i], "--events") == 0`. -/
def isEvents (flag : CStr) : Bool := strcmpEq flag "-n".toList || strcmpEq flag "--events".toList

/-- The test `strcmp(argv[i], "-o") == 0 || strcmp(argv[i], "--output") == 0`. -/
def isOutput (flag : CStr) : Bool := strcmpEq flag "-o".toList || strcmpEq flag "--output".toList

/-- The statement of lines 125-127: `strcpy(params.help, "-h")` on a help flag. -/
def ifHelp (flag : CStr) (p : parameters) : Run :=
  if isHelp flag then
    match strcpy .help p.help "-h".toList with
    | .ok a => ⟨[], .ok { p with help := a }⟩
    | .error f => ⟨[], .fault f⟩
  else ⟨[], .ok p⟩

/-- The statement of lines 128-130: `strcpy(params.header.model, argv[i + 1])`
on a model flag. -/
def ifModel (i : Nat) (flag : CStr) (value : Option CStr) (p : parameters) : Run :=
  if isModel flag then
    match value with
    | none => ⟨[i + 1], .fault .nullArgument⟩
    | some v =>
      match strcpy .model p.header.model v with
      | .ok a => ⟨[i + 1], .ok { p with header := { p.header with model := a } }⟩
      | .error f => ⟨[i + 1], .fault f⟩
  else ⟨[], .ok p⟩

/-- The statement of lines 131-133: `params.header.energy = std::stod(argv[i + 1])`
on an energy flag. -/
def ifEnergy (W : World) (i : Nat) (flag : CStr) (value : Option CStr) (p : parameters) : Run :=
  if isEnergy flag then
    match value with
    | none => ⟨[i + 1], .fault .nullArgument⟩
    | some v =>
      match W.stod v with
      | some d => ⟨[i + 1], .ok { p with header := { p.header with energy := d } }⟩
      | none => ⟨[i + 1], .fault .invalidNumber⟩
  else ⟨[], .ok p⟩

/-- The statement of lines 134-136: `params.header.events = std::stol(argv[i + 1])`
on an events flag. -/
def ifEvents (W : World) (i : Nat) (flag : CStr) (value : Option CStr) (p : parameters) : Run :=
  if isEvents flag then
    match value with
    | none => ⟨[i + 1], .fault .nullArgument⟩
    | some v =>
      match W.stol v with
      | some n => ⟨[i + 1], .ok { p with header := { p.header with events := n } }⟩
      | none => ⟨[i + 1], .fault .invalidNumber⟩
  else ⟨[], .ok p⟩

/-- The statement of lines 137-139: `strcpy(params.outputFile, argv[i + 1])` on
an output flag. -/
def ifOutput (i : Nat) (flag : CStr) (value : Option CStr) (p : parameters) : Run :=
  if isOutput flag then
    match value with
    | none => ⟨[i + 1], .fault .nullArgument⟩
    | some v =>
      match strcpy .outputFile p.outputFile v with
      | .ok a => ⟨[i + 1], .ok { p with outputFile := a }⟩
      | .error f => ⟨[i + 1], .fault f⟩
  else ⟨[], .ok p⟩

/-- The body of the loop of `getParams` at index `i`: `flag` is `argv[i]`,
`value` is `argv[i + 1]` (`none` for the null pointer `argv[argc]`). The five
`if` statements run in the order of the source. -/
def getParamsBody (W : World) (i : Nat) (flag : CStr) (value : Option CStr)
    (p : parameters) : Run :=
  ((((Run.mk [i] (.ok p)).andThen (ifHelp flag)).andThen (ifModel i flag value)).andThen
    (ifEnergy W i flag value)).andThen (ifEvents W i flag value) |>.andThen
      (ifOutput i flag value)

/-- The loop `for (int i = 1; i < argc; i += 2)` of `getParams`, on the
strings `argv[i], ..., argv[argc - 1]` still ahead. -/
def getParamsLoop (W : World) : Nat → List CStr → parameters → Run
  | _, [], p => ⟨[], .ok p⟩
  | i, [flag], p => getParamsBody W i flag none p
  | i, flag :: value :: rest, p =>
    (getParamsBody W i flag (some value) p).andThen (getParamsLoop W (i + 2) rest)

/-- The function `getParams(argc, argv)`, with `argc = argv.length`. -/
def getParams (W : World) (argv : List CStr) : Run :=
  getParamsLoop W 1 (argv.drop 1) (parameters.init W.stack)

/-! ## `main`, up to the start of the engine -/

/-- The test of line 35 of `main`: the run is refused. Each array is read as a
string, as `strcmp` does. -/
def rejected (p : parameters) : Bool :=
  strcmpEq (cstr p.help) "-h".toList || strcmpEq (cstr p.help) "--help".toList ||
    strcmpEq (cstr p.header.model) "".toList ||
    p.header.energy.leZero || decide (p.header.events ≤ 0) ||
    strcmpEq (cstr p.outputFile) "".toList

/-! ## The cross-section dump -/

/-- The arithmetic of `G4double` that the dump uses. -/
structure Arith (D : Type) where
  /-- The decimal literal `m E e`, as in `1E-03`. -/
  lit : Int → Int → D
  /-- The conversion of an `int` to `double`. -/
  ofInt : Int → D
  mul : D → D → D
  div : D → D → D
  exp : D → D
  log : D → D

/-- The Geant4 side of the dump. -/
structure Engine (D : Type) where
  arith : Arith D
  /-- The unit `CLHEP::MeV`. -/
  MeV : D
  /-- The unit `CLHEP::barn`. -/
  barn : D
  /-- The names of the processes of the photon's process list, in order. -/
  processes : List String
  /-- The call `emCal.GetCrossSectionPerVolume(energy, particle, name, material)`. -/
  crossSectionPerVolume : D → String → D
  /-- The call `material->GetTotNbOfAtomsPerVolume()`. -/
  atomsPerVolume : D
  /-- Whether `fopen` of the cross-section file succeeds. -/
  tableOpens : CStr → Bool

/-- One call of `fprintf` on the cross-section file, with its argument. -/
inductive Printed (D : Type)
  /-- The call `fprintf(stream, "# energy")`. -/
  | title
  /-- The call `fprintf(stream, " %s", name)`. -/
  | name (s : String)
  /-- The call `fprintf(stream, "\n")`. -/
  | newline
  /-- The call `fprintf(stream, "%.5E", energy)`. -/
  | energy (e : D)
  /-- The call `fprintf(stream, " %.5E", sigma / CLHEP::barn)`. -/
  | sigma (s : D)
deriving DecidableEq, Repr

/-- The bound `eMin = 1E-03 * CLHEP::MeV`. -/
def eMin {D : Type} (E : Engine D) : D := E.arith.mul (E.arith.lit 1 (-3)) E.MeV

/-- The bound `eMax = 1E+01 * CLHEP::MeV`. -/
def eMax {D : Type} (E : Engine D) : D := E.arith.mul (E.arith.lit 1 1) E.MeV

/-- The count `int ne = 401`. -/
def ne : Nat := 401

/-- The step `re = std::log(eMax / eMin) / (ne - 1)`. -/
def re {D : Type} (E : Engine D) : D :=
  E.arith.div (E.arith.log (E.arith.div (eMax E) (eMin E))) (E.arith.ofInt ((ne : Int) - 1))

/-- The energy of row `i`: `eMin * std::exp(i * re)`. -/
def rowEnergy {D : Type} (E : Engine D) (i : Nat) : D :=
  E.arith.mul (eMin E) (E.arith.exp (E.arith.mul (E.arith.ofInt i) (re E)))

/-- The value printed for a process at an energy:
`GetCrossSectionPerVolume(...) / GetTotNbOfAtomsPerVolume()`, over `CLHEP::barn`. -/
def sigmaInBarn {D : Type} (E : Engine D) (energy : D) (name : String) : D :=
  E.arith.div (E.arith.div (E.crossSectionPerVolume energy name) E.atomsPerVolume) E.barn

/-- The loop of lines 95-99 over the processes still ahead. -/
def printNames {D : Type} : List String → List (Printed D)
  | [] => []
  | n :: rest =>
    if n == "Transportation" then printNames rest
    else .name n :: printNames rest

/-- The loop of lines 105-111 over the processes still ahead. -/
def printSigmas {D : Type} (E : Engine D) (energy : D) : List String → List (Printed D)
  | [] => []
  | n :: rest =>
    if n == "Transportation" then printSigmas E energy rest
    else .sigma (sigmaInBarn E energy n) :: printSigmas E energy rest

/-- The body of the loop of lines 102-113 at row `i`. -/
def printRow {D : Type} (E : Engine D) (i : Nat) : List (Printed D) :=
  .energy (rowEnergy E i) :: printSigmas E (rowEnergy E i) E.processes ++ [.newline]

/-- The loop `for (int i = 0; i < ne; i++)` from row `i` on, `n` rows ahead. -/
def printRows {D : Type} (E : Engine D) : Nat → Nat → List (Printed D)
  | 0, _ => []
  | n + 1, i => printRow E i ++ printRows E n (i + 1)

/-- Everything lines 94-113 print to the cross-section file, call by call. -/
def printTable {D : Type} (E : Engine D) : List (Printed D) :=
  .title :: printNames E.processes ++ [.newline] ++ printRows E ne 0

/-! ## `main` -/

/-- What `main` does to the outside, in order. -/
inductive Event (D : Type)
  /-- The call `show_usage(argv[0])`. -/
  | usage (name : Option CStr)
  /-- The five lines of parameters on `std::cout`. -/
  | printParams (model : CStr) (energy : Double) (events : Int) (outputFile : CStr)
  /-- A call of `fopen`. -/
  | fopen (path : CStr) (mode : CStr)
  /-- The call `fwrite` of the header. -/
  | fwrite (bytes : List Char)
  | fclose
  /-- The message `Could not open file ...` on `std::cerr`. -/
  | couldNotOpen (path : CStr)
  /-- Lines 60-80: the engine is built and runs `events` events. -/
  | simulate (model : CStr) (energy : Double) (events : Int) (outputFile : CStr)
  /-- A call of `fprintf` on the cross-section file. -/
  | fprintf (what : Printed D)
deriving DecidableEq, Repr

/-- How `main` ends. -/
inductive Exit
  /-- By `return code`. -/
  | returned (code : Int)
  /-- By `exit(code)`. -/
  | exited (code : Int)
  /-- By a fault. -/
  | stopped (f : Fault)
deriving DecidableEq, Repr

/-- A run of `main`. -/
structure Outcome (D : Type) where
  trace : List (Event D)
  exit : Exit

/-- The name `"share/data/cross-sections-" + model + ".txt"`. -/
def tableName (model : CStr) : CStr :=
  "share/data/cross-sections-".toList ++ model ++ ".txt".toList

/-- Lines 43-117 of `main`, on the record that passed the test of line 35. -/
def mainRun {D : Type} (W : World) (E : Engine D) (p : parameters) : Outcome D :=
  let shown : List (Event D) :=
    [.printParams (cstr p.header.model) p.header.energy p.header.events (cstr p.outputFile),
     .fopen (cstr p.outputFile) "wb".toList]
  if W.canOpen (cstr p.outputFile) then
    let ran : List (Event D) := shown ++
      [.fwrite (headerBytes p.header), .fclose,
       .simulate (cstr p.header.model) p.header.energy p.header.events (cstr p.outputFile),
       .fopen (tableName (cstr p.header.model)) "w+".toList]
    if E.tableOpens (tableName (cstr p.header.model)) then
      ⟨ran ++ (printTable E).map .fprintf ++ [.fclose], .returned 0⟩
    else ⟨ran, .stopped .nullStream⟩
  else ⟨shown ++ [.couldNotOpen (cstr p.outputFile)], .exited 1⟩

/-- The function `main(argc, argv)`. -/
def main {D : Type} (W : World) (E : Engine D) (argv : List CStr) : Outcome D :=
  match (getParams W argv).result with
  | .fault f => ⟨[], .stopped f⟩
  | .ok p =>
    if rejected p then ⟨[.usage argv.head?], .returned (-1)⟩
    else mainRun W E p

/-! ## Notions used to state the properties -/

/-- One of the eight spellings of a flag that takes a value. -/
def isValueFlag (flag : CStr) : Bool :=
  isModel flag || isEnergy flag || isEvents flag || isOutput flag

/-- One of the ten spellings the parser recognises. -/
def recognised (flag : CStr) : Bool := isHelp flag || isValueFlag flag

/-- The other spelling of a flag; any other string is left as it is. -/
def otherSpelling (flag : CStr) : CStr :=
  if flag = "-h".toList then "--help".toList
  else if flag = "--help".toList then "-h".toList
  else if flag = "-m".toList then "--model".toList
  else if flag = "--model".toList then "-m".toList
  else if flag = "-e".toList then "--energy".toList
  else if flag = "--energy".toList then "-e".toList
  else if flag = "-n".toList then "--events".toList
  else if flag = "--events".toList then "-n".toList
  else if flag = "-o".toList then "--output".toList
  else if flag = "--output".toList then "-o".toList
  else flag

/-- The strings at the flag positions, given the strings that follow the
program name: the first one and every second one after it. -/
def flagsOf : List CStr → List CStr
  | [] => []
  | [flag] => [flag]
  | flag :: _ :: rest => flag :: flagsOf rest

/-- The flag/value pairs of the strings that follow the program name; a last
string without a partner is left out. -/
def pairsOf : List CStr → List (CStr × CStr)
  | flag :: value :: rest => (flag, value) :: pairsOf rest
  | _ => []

/-- The value that follows the last occurrence of a flag, when it occurs. -/
def lastValue (test : CStr → Bool) (pairs : List (CStr × CStr)) : Option CStr :=
  ((pairs.filter (fun fv => test fv.1)).getLast?).map (fun fv => fv.2)

/-- A flag/value pair the parser can take: the value is a C string and, where
the flag stores or converts it, it fits the array (31 characters for the model,
254 for the output file) or is converted without exception. -/
def Storable (W : World) (fv : CStr × CStr) : Prop :=
  NUL ∉ fv.2 ∧ (isModel fv.1 = true → fv.2.length < 32) ∧
    (isOutput fv.1 = true → fv.2.length < 255) ∧
    (isEnergy fv.1 = true → (W.stod fv.2).isSome = true) ∧
    (isEvents fv.1 = true → (W.stol fv.2).isSome = true)

/-- The three arrays of a record have the sizes of their declarations and
hold a terminated string each. -/
def parameters.WellFormed (p : parameters) : Prop :=
  (p.help.length = 20 ∧ p.header.model.length = 32 ∧ p.outputFile.length = 255) ∧
    NUL ∈ p.help ∧ NUL ∈ p.header.model ∧ NUL ∈ p.outputFile

/-- The record of a result, when there is one. -/
def Parsed.params? : Parsed → Option parameters
  | .ok p => some p
  | .fault _ => none

/-- The header `main` wrote: the bytes of its first `fwrite`, if any. -/
def headerWritten {D : Type} : List (Event D) → Option (List Char)
  | [] => none
  | .fwrite bytes :: _ => some bytes
  | _ :: rest => headerWritten rest

/-- What `main` printed to the cross-section file, call by call. -/
def printedBy {D : Type} : List (Event D) → List (Printed D)
  | [] => []
  | .fprintf what :: rest => what :: printedBy rest
  | _ :: rest => printedBy rest

/-- The print is the call `fprintf(stream, "\n")`. -/
def Printed.isNewline {D : Type} : Printed D → Bool
  | .newline => true
  | _ => false

/-- The lines of a sequence of prints: `line` holds the prints of the line
being read, and a print of the newline closes it. Prints after the last
newline make a last line. -/
def linesFrom {D : Type} : List (Printed D) → List (Printed D) → List (List (Printed D))
  | line, [] => if line.isEmpty then [] else [line]
  | line, what :: rest =>
    if what.isNewline then line :: linesFrom [] rest else linesFrom (line ++ [what]) rest

/-- The lines of a sequence of prints. -/
def lines {D : Type} (printed : List (Printed D)) : List (List (Printed D)) :=
  linesFrom [] printed

/-- The processes that get a column: all but `Transportation`, in order. -/
def columns (processes : List String) : List String :=
  processes.filter (fun n => n != "Transportation")

/-! ## The real numbers as `G4double` -/

/-- The arithmetic of the real numbers, for the properties stated over the
reals. -/
noncomputable def realArith : Arith ℝ where
  lit := fun m e => (m : ℝ) * (10 : ℝ) ^ e
  ofInt := fun n => (n : ℝ)
  mul := fun x y => x * y
  div := fun x y => x / y
  exp := Real.exp
  log := Real.log

/-- An engine over the reals with the units of CLHEP (`MeV` is 1, `barn` is
`1E-22`, lengths being in millimetres) and the given cross sections. -/
noncomputable def realEngine (processes : List String) (xs : ℝ → String → ℝ) : Engine ℝ where
  arith := realArith
  MeV := 1
  barn := (1 : ℝ) / 10 ^ 22
  processes := processes
  crossSectionPerVolume := xs
  atomsPerVolume := 1
  tableOpens := fun _ => true

/-! ## A world for the examples -/

/-- The white space `std::stol` skips. -/
def isSpace (c : Char) : Bool := c.toNat == 32 || (9 ≤ c.toNat && c.toNat ≤ 13)

/-- The number written by decimal digits. -/
def decimal (digits : List Char) : Nat :=
  digits.foldl (fun a c => 10 * a + (c.toNat - 48)) 0

/-- The conversion `std::stol(s)` in base 10: white space, an optional sign,
the longest run of digits; it throws when there is no digit or when the number
is not a `long` of 64 bits. -/
def stolDecimal (s : CStr) : Option Int :=
  let body := s.dropWhile isSpace
  let negative := body.head? == some '-'
  let unsigned := if body.head? == some '-' || body.head? == some '+' then body.drop 1 else body
  let digits := unsigned.takeWhile Char.isDigit
  let value : Int := if negative then -(decimal digits : Int) else (decimal digits : Int)
  if digits.isEmpty then none
  else if -(2 : Int) ^ 63 ≤ value ∧ value < (2 : Int) ^ 63 then some value
  else none

/-- The `double` of a natural number below `2 ^ 53`, which is exact. -/
def Double.ofSmallNat (n : Nat) : Double :=
  let k := ((List.range 53).filter (fun j => 2 ^ j ≤ n)).length - 1
  if n = 0 then ⟨false, 0, 0⟩ else ⟨false, 1023 + k, (n - 2 ^ k) * 2 ^ (52 - k)⟩

/-- The conversion `std::stod(s)` on the strings the examples use: an optional
sign and decimal digits that write an integer below `2 ^ 53`, which it
converts exactly, and the strings that start with no number, on which it
throws. Every other string is outside this stand-in, which refuses it. -/
def stodIntegral (s : CStr) : Option Double :=
  let negative := s.head? == some '-'
  let digits := if s.head? == some '-' || s.head? == some '+' then s.drop 1 else s
  if digits.isEmpty || !digits.all Char.isDigit || decide (2 ^ 53 ≤ decimal digits) then none
  else some { Double.ofSmallNat (decimal digits) with sign := negative }

/-- The world of the examples: the stack holds the letter `J`, every file
opens. -/
def exampleWorld : World where
  stack := fun _ => 'J'
  stod := stodIntegral
  stol := stolDecimal
  canOpen := fun _ => true

/-- The engine of the examples: its numbers carry no information, and the
photon has the four processes of the standard physics and the transport. -/
def exampleEngine : Engine Unit where
  arith := ⟨fun _ _ => (), fun _ => (), fun _ _ => (), fun _ _ => (), fun _ => (), fun _ => ()⟩
  MeV := ()
  barn := ()
  processes := ["Transportation", "phot", "compt", "conv", "Rayl"]
  crossSectionPerVolume := fun _ _ => ()
  atomsPerVolume := ()
  tableOpens := fun _ => true

/-! # Properties -/

/-! ## Strings -/

theorem cstr_append_NUL (s rest : List Char) (h : NUL ∉ s) : cstr (s ++ NUL :: rest) = s := by
  induction s with
  | nil => simp [cstr, List.takeWhile]
  | cons c s ih =>
    have hc : c ≠ NUL := fun e => h (by simp [e])
    have hs : NUL ∉ s := fun m => h (List.mem_cons_of_mem _ m)
    have := ih hs
    simp only [cstr] at this ⊢
    have hb : (c != NUL) = true := by simpa using hc
    simp [List.takeWhile, hb, this]

theorem cstr_strcpyCells (dst : List Char) (src : CStr) (h : NUL ∉ src) :
    cstr (strcpyCells dst src) = src :=
  cstr_append_NUL src _ h

theorem length_strcpyCells (dst : List Char) (src : CStr) (h : src.length + 1 ≤ dst.length) :
    (strcpyCells dst src).length = dst.length := by
  simp [strcpyCells]; omega

theorem strcpy_of_fits (field : Field) (dst : List Char) (src : CStr)
    (h : src.length + 1 ≤ dst.length) : strcpy field dst src = .ok (strcpyCells dst src) := by
  simp [strcpy, h]

/-! ## Sequencing -/

theorem Run.andThen_ok (reads : List Nat) (p : parameters) (k : parameters → Run) :
    (Run.mk reads (.ok p)).andThen k = ⟨reads ++ (k p).reads, (k p).result⟩ := rfl

theorem Run.andThen_skip (r : Run) (k : parameters → Run) (h : ∀ p, k p = ⟨[], .ok p⟩) :
    r.andThen k = r := by
  obtain ⟨reads, result⟩ := r
  cases result <;> simp [Run.andThen, h]

/-! ## The flags -/

theorem isHelp_iff (f : CStr) : isHelp f = true ↔ f = "-h".toList ∨ f = "--help".toList := by
  simp [isHelp, strcmpEq]

theorem isModel_iff (f : CStr) : isModel f = true ↔ f = "-m".toList ∨ f = "--model".toList := by
  simp [isModel, strcmpEq]

theorem isEnergy_iff (f : CStr) : isEnergy f = true ↔ f = "-e".toList ∨ f = "--energy".toList := by
  simp [isEnergy, strcmpEq]

theorem isEvents_iff (f : CStr) : isEvents f = true ↔ f = "-n".toList ∨ f = "--events".toList := by
  simp [isEvents, strcmpEq]

theorem isOutput_iff (f : CStr) : isOutput f = true ↔ f = "-o".toList ∨ f = "--output".toList := by
  simp [isOutput, strcmpEq]

theorem help_excludes (f : CStr) (h : isHelp f = true) :
    isModel f = false ∧ isEnergy f = false ∧ isEvents f = false ∧ isOutput f = false := by
  rcases (isHelp_iff f).1 h with rfl | rfl <;> decide

theorem model_excludes (f : CStr) (h : isModel f = true) :
    isHelp f = false ∧ isEnergy f = false ∧ isEvents f = false ∧ isOutput f = false := by
  rcases (isModel_iff f).1 h with rfl | rfl <;> decide

theorem energy_excludes (f : CStr) (h : isEnergy f = true) :
    isHelp f = false ∧ isModel f = false ∧ isEvents f = false ∧ isOutput f = false := by
  rcases (isEnergy_iff f).1 h with rfl | rfl <;> decide

theorem events_excludes (f : CStr) (h : isEvents f = true) :
    isHelp f = false ∧ isModel f = false ∧ isEnergy f = false ∧ isOutput f = false := by
  rcases (isEvents_iff f).1 h with rfl | rfl <;> decide

theorem output_excludes (f : CStr) (h : isOutput f = true) :
    isHelp f = false ∧ isModel f = false ∧ isEnergy f = false ∧ isEvents f = false := by
  rcases (isOutput_iff f).1 h with rfl | rfl <;> decide

theorem ifHelp_skip (f : CStr) (h : isHelp f = false) (p : parameters) :
    ifHelp f p = ⟨[], .ok p⟩ := by simp [ifHelp, h]

theorem ifModel_skip (i : Nat) (f : CStr) (v : Option CStr) (h : isModel f = false)
    (p : parameters) : ifModel i f v p = ⟨[], .ok p⟩ := by simp [ifModel, h]

theorem ifEnergy_skip (W : World) (i : Nat) (f : CStr) (v : Option CStr) (h : isEnergy f = false)
    (p : parameters) : ifEnergy W i f v p = ⟨[], .ok p⟩ := by simp [ifEnergy, h]

theorem ifEvents_skip (W : World) (i : Nat) (f : CStr) (v : Option CStr) (h : isEvents f = false)
    (p : parameters) : ifEvents W i f v p = ⟨[], .ok p⟩ := by simp [ifEvents, h]

theorem ifOutput_skip (i : Nat) (f : CStr) (v : Option CStr) (h : isOutput f = false)
    (p : parameters) : ifOutput i f v p = ⟨[], .ok p⟩ := by simp [ifOutput, h]

/-- On a help flag the body is its first statement. -/
theorem body_help (W : World) (i : Nat) (f : CStr) (v : Option CStr) (p : parameters)
    (h : isHelp f = true) :
    getParamsBody W i f v p = (Run.mk [i] (.ok p)).andThen (ifHelp f) := by
  obtain ⟨h1, h2, h3, h4⟩ := help_excludes f h
  unfold getParamsBody
  rw [Run.andThen_skip _ _ (ifOutput_skip i f v h4), Run.andThen_skip _ _ (ifEvents_skip W i f v h3),
    Run.andThen_skip _ _ (ifEnergy_skip W i f v h2), Run.andThen_skip _ _ (ifModel_skip i f v h1)]

theorem body_model (W : World) (i : Nat) (f : CStr) (v : Option CStr) (p : parameters)
    (h : isModel f = true) :
    getParamsBody W i f v p = (Run.mk [i] (.ok p)).andThen (ifModel i f v) := by
  obtain ⟨h1, h2, h3, h4⟩ := model_excludes f h
  unfold getParamsBody
  rw [Run.andThen_skip _ _ (ifOutput_skip i f v h4), Run.andThen_skip _ _ (ifEvents_skip W i f v h3),
    Run.andThen_skip _ _ (ifEnergy_skip W i f v h2), Run.andThen_skip _ _ (ifHelp_skip f h1)]

theorem body_energy (W : World) (i : Nat) (f : CStr) (v : Option CStr) (p : parameters)
    (h : isEnergy f = true) :
    getParamsBody W i f v p = (Run.mk [i] (.ok p)).andThen (ifEnergy W i f v) := by
  obtain ⟨h1, h2, h3, h4⟩ := energy_excludes f h
  unfold getParamsBody
  rw [Run.andThen_skip _ _ (ifOutput_skip i f v h4), Run.andThen_skip _ _ (ifEvents_skip W i f v h3),
    Run.andThen_skip _ _ (ifHelp_skip f h1), Run.andThen_skip _ _ (ifModel_skip i f v h2)]

theorem body_events (W : World) (i : Nat) (f : CStr) (v : Option CStr) (p : parameters)
    (h : isEvents f = true) :
    getParamsBody W i f v p = (Run.mk [i] (.ok p)).andThen (ifEvents W i f v) := by
  obtain ⟨h1, h2, h3, h4⟩ := events_excludes f h
  unfold getParamsBody
  rw [Run.andThen_skip _ _ (ifOutput_skip i f v h4), Run.andThen_skip _ _ (ifHelp_skip f h1),
    Run.andThen_skip _ _ (ifModel_skip i f v h2), Run.andThen_skip _ _ (ifEnergy_skip W i f v h3)]

theorem body_output (W : World) (i : Nat) (f : CStr) (v : Option CStr) (p : parameters)
    (h : isOutput f = true) :
    getParamsBody W i f v p = (Run.mk [i] (.ok p)).andThen (ifOutput i f v) := by
  obtain ⟨h1, h2, h3, h4⟩ := output_excludes f h
  unfold getParamsBody
  rw [Run.andThen_skip _ _ (ifHelp_skip f h1), Run.andThen_skip _ _ (ifModel_skip i f v h2),
    Run.andThen_skip _ _ (ifEnergy_skip W i f v h3), Run.andThen_skip _ _ (ifEvents_skip W i f v h4)]

theorem recognised_eq_false (f : CStr) (h : recognised f = false) :
    isHelp f = false ∧ isModel f = false ∧ isEnergy f = false ∧ isEvents f = false ∧
      isOutput f = false := by
  simpa [recognised, isValueFlag, and_assoc] using h

theorem body_other (W : World) (i : Nat) (f : CStr) (v : Option CStr) (p : parameters)
    (h : recognised f = false) : getParamsBody W i f v p = ⟨[i], .ok p⟩ := by
  obtain ⟨h1, h2, h3, h4, h5⟩ := recognised_eq_false f h
  unfold getParamsBody
  rw [Run.andThen_skip _ _ (ifHelp_skip f h1), Run.andThen_skip _ _ (ifModel_skip i f v h2),
    Run.andThen_skip _ _ (ifEnergy_skip W i f v h3), Run.andThen_skip _ _ (ifEvents_skip W i f v h4),
    Run.andThen_skip _ _ (ifOutput_skip i f v h5)]

/-! ## The defaults -/

theorem cstr_init_help (stack : Nat → Char) : cstr (parameters.init stack).help = [] := rfl

theorem cstr_init_model (stack : Nat → Char) :
    cstr (parameters.init stack).header.model = "standard".toList :=
  cstr_strcpyCells _ _ (by decide)

theorem cstr_init_outputFile (stack : Nat → Char) :
    cstr (parameters.init stack).outputFile = "geant4-goupil-validation.bin".toList := rfl

theorem rejected_iff (p : parameters) :
    rejected p = true ↔
      (cstr p.help = "-h".toList ∨ cstr p.help = "--help".toList ∨ cstr p.header.model = [] ∨
        p.header.energy.leZero = true ∨ p.header.events ≤ 0 ∨ cstr p.outputFile = []) := by
  simp [rejected, strcmpEq, or_assoc]

theorem rejected_init (stack : Nat → Char) : rejected (parameters.init stack) = false := by
  rw [Bool.eq_false_iff, Ne, rejected_iff, cstr_init_help, cstr_init_model, cstr_init_outputFile]
  change ¬ (([] : CStr) = "-h".toList ∨ [] = "--help".toList ∨ "standard".toList = [] ∨
    Double.one.leZero = true ∨ (1000000 : Int) ≤ 0 ∨ "geant4-goupil-validation.bin".toList = [])
  decide

/-- C3. With no option (`argc <= 1`) `getParams` reads nothing and returns the
defaults: model `standard`, energy 1, 1000000 events, output file
`geant4-goupil-validation.bin`, no help request; the test of `main` accepts
this record, so `main` goes on with it. -/
theorem getParams_defaults {D : Type} (W : World) (E : Engine D) (argv : List CStr)
    (h : argv.length ≤ 1) :
    ∃ p, getParams W argv = ⟨[], .ok p⟩ ∧
      cstr p.header.model = "standard".toList ∧
      p.header.energy = Double.one ∧ p.header.energy.leZero = false ∧
      p.header.events = 1000000 ∧
      cstr p.outputFile = "geant4-goupil-validation.bin".toList ∧
      cstr p.help = [] ∧
      rejected p = false ∧
      main W E argv = mainRun W E p := by
  have hd : argv.drop 1 = [] := by
    rw [List.drop_eq_nil_iff]; exact h
  have hg : getParams W argv = ⟨[], .ok (parameters.init W.stack)⟩ := by
    simp [getParams, hd, getParamsLoop]
  refine ⟨parameters.init W.stack, hg, cstr_init_model _, rfl, rfl, rfl,
    cstr_init_outputFile _, cstr_init_help _, rejected_init _, ?_⟩
  simp [main, hg, rejected_init]

theorem getParams_defaults_witness :
    ["prog".toList].length ≤ 1 ∧
      ∃ p, getParams exampleWorld ["prog".toList] = ⟨[], .ok p⟩ ∧
        cstr p.header.model = "standard".toList ∧
        p.header.energy = Double.one ∧ p.header.energy.leZero = false ∧
        p.header.events = 1000000 ∧
        cstr p.outputFile = "geant4-goupil-validation.bin".toList ∧
        cstr p.help = [] ∧
        rejected p = false ∧
        main exampleWorld exampleEngine ["prog".toList] = mainRun exampleWorld exampleEngine p :=
  ⟨by decide, getParams_defaults exampleWorld exampleEngine ["prog".toList] (by decide)⟩

/-! ## The model field -/

/-- C6 (the code at the failing input). A model name of 32 characters makes
`getParams` copy 33 bytes into the 32 bytes of `header.model`. -/
theorem getParams_model_overflow (W : World) :
    getParams W ["prog".toList, "-m".toList, List.replicate 32 'a'] =
      ⟨[1, 2], .fault (.overflow .model 33 32)⟩ := by
  rfl

/-! ## The loop -/

theorem Run.andThen_assoc (r : Run) (k k' : parameters → Run) :
    (r.andThen k).andThen k' = r.andThen (fun p => (k p).andThen k') := by
  obtain ⟨reads, result⟩ := r
  cases result with
  | fault f => rfl
  | ok p =>
    simp only [Run.andThen]
    cases hk : (k p).result <;> simp [hk]

theorem Run.andThen_result (r : Run) (k : parameters → Run) :
    (r.andThen k).result =
      match r.result with
      | .ok p => (k p).result
      | .fault f => .fault f := by
  obtain ⟨reads, result⟩ := r
  cases result <;> rfl

theorem getParamsLoop_nil (W : World) (i : Nat) (p : parameters) :
    getParamsLoop W i [] p = ⟨[], .ok p⟩ := by
  simp [getParamsLoop]

theorem getParamsLoop_single (W : World) (i : Nat) (f : CStr) (p : parameters) :
    getParamsLoop W i [f] p = getParamsBody W i f none p := by
  simp [getParamsLoop]

theorem getParamsLoop_pair (W : World) (i : Nat) (f v : CStr) (rest : List CStr)
    (p : parameters) :
    getParamsLoop W i (f :: v :: rest) p =
      (getParamsBody W i f (some v) p).andThen (getParamsLoop W (i + 2) rest) := by
  simp [getParamsLoop]

/-- Induction over a list two elements at a time. -/
theorem two_step_induction {α : Type} {P : List α → Prop} (nil : P []) (single : ∀ a, P [a])
    (pair : ∀ a b l, P l → P (a :: b :: l)) : ∀ l : List α, P l
  | [] => nil
  | [a] => single a
  | a :: b :: l => pair a b l (two_step_induction nil single pair l)

/-- Induction over a list of even length two elements at a time. -/
theorem pairs_induction {α : Type} {P : List α → Prop} (nil : P [])
    (pair : ∀ a b l, P l → P (a :: b :: l)) (l : List α) (h : l.length % 2 = 0) : P l := by
  revert h
  refine two_step_induction (P := fun l => l.length % 2 = 0 → P l) (fun _ => nil) ?_ ?_ l
  · intro a h
    simp at h
  · intro a b l ih h
    exact pair a b l (ih (by simp only [List.length_cons] at h; omega))

/-- The loop over whole pairs followed by more strings is the loop over the
pairs, then the loop over the rest, at the index reached. -/
theorem getParamsLoop_append (W : World) (pre rest : List CStr) (h : pre.length % 2 = 0) :
    ∀ (i : Nat) (p : parameters),
      getParamsLoop W i (pre ++ rest) p =
        (getParamsLoop W i pre p).andThen (getParamsLoop W (i + pre.length) rest) := by
  refine pairs_induction (P := fun pre => ∀ (i : Nat) (p : parameters),
    getParamsLoop W i (pre ++ rest) p =
      (getParamsLoop W i pre p).andThen (getParamsLoop W (i + pre.length) rest)) ?_ ?_ pre h
  · intro i p
    simp [getParamsLoop_nil, Run.andThen]
  · intro a b l ih i p
    simp only [List.cons_append, getParamsLoop_pair, Run.andThen_assoc, List.length_cons]
    congr 1
    funext q
    rw [ih]
    have e : i + 2 + l.length = i + (l.length + 1 + 1) := by omega
    rw [e]

/-- A list of odd length is its head and a list of even length. -/
theorem odd_length_cases {α : Type} (l : List α) (h : l.length % 2 = 1) :
    ∃ a l', l = a :: l' ∧ l'.length % 2 = 0 := by
  cases l with
  | nil => simp at h
  | cons a l' => exact ⟨a, l', rfl, by simp only [List.length_cons] at h; omega⟩

/-! ## The result does not depend on the index -/

theorem ifModel_result_index (i j : Nat) (f : CStr) (v : Option CStr) (p : parameters) :
    (ifModel i f v p).result = (ifModel j f v p).result := by
  unfold ifModel
  split
  · cases v with
    | none => rfl
    | some v => dsimp only; split <;> rfl
  · rfl

theorem ifEnergy_result_index (W : World) (i j : Nat) (f : CStr) (v : Option CStr)
    (p : parameters) : (ifEnergy W i f v p).result = (ifEnergy W j f v p).result := by
  unfold ifEnergy
  split
  · cases v with
    | none => rfl
    | some v => dsimp only; split <;> rfl
  · rfl

theorem ifEvents_result_index (W : World) (i j : Nat) (f : CStr) (v : Option CStr)
    (p : parameters) : (ifEvents W i f v p).result = (ifEvents W j f v p).result := by
  unfold ifEvents
  split
  · cases v with
    | none => rfl
    | some v => dsimp only; split <;> rfl
  · rfl

theorem ifOutput_result_index (i j : Nat) (f : CStr) (v : Option CStr) (p : parameters) :
    (ifOutput i f v p).result = (ifOutput j f v p).result := by
  unfold ifOutput
  split
  · cases v with
    | none => rfl
    | some v => dsimp only; split <;> rfl
  · rfl

theorem recognised_cases (f : CStr) :
    isHelp f = true ∨ isModel f = true ∨ isEnergy f = true ∨ isEvents f = true ∨
      isOutput f = true ∨ recognised f = false := by
  unfold recognised isValueFlag
  cases isHelp f <;> cases isModel f <;> cases isEnergy f <;> cases isEvents f <;>
    cases isOutput f <;> simp

theorem getParamsBody_result_index (W : World) (i j : Nat) (f : CStr) (v : Option CStr)
    (p : parameters) : (getParamsBody W i f v p).result = (getParamsBody W j f v p).result := by
  rcases recognised_cases f with h | h | h | h | h | h
  · rw [body_help W i f v p h, body_help W j f v p h]; rfl
  · rw [body_model W i f v p h, body_model W j f v p h]
    exact ifModel_result_index i j f v p
  · rw [body_energy W i f v p h, body_energy W j f v p h]
    exact ifEnergy_result_index W i j f v p
  · rw [body_events W i f v p h, body_events W j f v p h]
    exact ifEvents_result_index W i j f v p
  · rw [body_output W i f v p h, body_output W j f v p h]
    exact ifOutput_result_index i j f v p
  · rw [body_other W i f v p h, body_other W j f v p h]

theorem getParamsLoop_result_index (W : World) (rest : List CStr) :
    ∀ (i j : Nat) (p : parameters),
      (getParamsLoop W i rest p).result = (getParamsLoop W j rest p).result := by
  refine two_step_induction (P := fun rest => ∀ (i j : Nat) (p : parameters),
    (getParamsLoop W i rest p).result = (getParamsLoop W j rest p).result) ?_ ?_ ?_ rest
  · intro i j p
    rfl
  · intro a i j p
    rw [getParamsLoop_single, getParamsLoop_single]
    exact getParamsBody_result_index W i j a none p
  · intro a b l ih i j p
    rw [getParamsLoop_pair, getParamsLoop_pair, Run.andThen_result, Run.andThen_result,
      getParamsBody_result_index W i j a (some b) p]
    cases (getParamsBody W j a (some b) p).result with
    | ok q => exact ih _ _ q
    | fault f => rfl

/-- The strings after the program name decide the result. -/
theorem getParams_cons (W : World) (a : CStr) (rest : List CStr) :
    getParams W (a :: rest) = getParamsLoop W 1 rest (parameters.init W.stack) := rfl

theorem main_congr {D : Type} (W : World) (E : Engine D) (argv argv' : List CStr)
    (hr : (getParams W argv).result = (getParams W argv').result)
    (hh : argv.head? = argv'.head?) : main W E argv = main W E argv' := by
  unfold main
  rw [hr, hh]

/-! ## The two spellings of a flag -/

theorem isHelp_otherSpelling (f : CStr) : isHelp (otherSpelling f) = isHelp f := by
  unfold otherSpelling
  split_ifs <;> first | rfl | (subst_vars; decide)

theorem isModel_otherSpelling (f : CStr) : isModel (otherSpelling f) = isModel f := by
  unfold otherSpelling
  split_ifs <;> first | rfl | (subst_vars; decide)

theorem isEnergy_otherSpelling (f : CStr) : isEnergy (otherSpelling f) = isEnergy f := by
  unfold otherSpelling
  split_ifs <;> first | rfl | (subst_vars; decide)

theorem isEvents_otherSpelling (f : CStr) : isEvents (otherSpelling f) = isEvents f := by
  unfold otherSpelling
  split_ifs <;> first | rfl | (subst_vars; decide)

theorem isOutput_otherSpelling (f : CStr) : isOutput (otherSpelling f) = isOutput f := by
  unfold otherSpelling
  split_ifs <;> first | rfl | (subst_vars; decide)

theorem getParamsBody_otherSpelling (W : World) (i : Nat) (f : CStr) (v : Option CStr)
    (p : parameters) :
    getParamsBody W i (otherSpelling f) v p = getParamsBody W i f v p := by
  have e1 := isHelp_otherSpelling f
  have e2 := isModel_otherSpelling f
  have e3 := isEnergy_otherSpelling f
  have e4 := isEvents_otherSpelling f
  have e5 := isOutput_otherSpelling f
  rcases recognised_cases f with h | h | h | h | h | h
  · rw [body_help W i _ v p (e1.trans h), body_help W i f v p h]
    simp [Run.andThen, ifHelp, e1]
  · rw [body_model W i _ v p (e2.trans h), body_model W i f v p h]
    simp [Run.andThen, ifModel, e2]
  · rw [body_energy W i _ v p (e3.trans h), body_energy W i f v p h]
    simp [Run.andThen, ifEnergy, e3]
  · rw [body_events W i _ v p (e4.trans h), body_events W i f v p h]
    simp [Run.andThen, ifEvents, e4]
  · rw [body_output W i _ v p (e5.trans h), body_output W i f v p h]
    simp [Run.andThen, ifOutput, e5]
  · have h' : recognised (otherSpelling f) = false := by
      unfold recognised isValueFlag at h ⊢
      rw [e1, e2, e3, e4, e5]
      exact h
    rw [body_other W i _ v p h', body_other W i f v p h]

theorem getParamsLoop_otherSpelling (W : World) (i : Nat) (f : CStr) (post : List CStr)
    (p : parameters) :
    getParamsLoop W i (otherSpelling f :: post) p = getParamsLoop W i (f :: post) p := by
  cases post with
  | nil => rw [getParamsLoop_single, getParamsLoop_single, getParamsBody_otherSpelling]
  | cons v rest => rw [getParamsLoop_pair, getParamsLoop_pair, getParamsBody_otherSpelling]

/-- C4. Replacing the string at a flag position (an odd index of `argv`) by
its other spelling (`-h` and `--help`, `-m` and `--model`, `-e` and
`--energy`, `-n` and `--events`, `-o` and `--output`, in either direction)
changes neither the run of `getParams` nor the run of `main`. -/
theorem getParams_otherSpelling {D : Type} (W : World) (E : Engine D) (pre : List CStr)
    (f : CStr) (post : List CStr) (h : pre.length % 2 = 1) :
    getParams W (pre ++ otherSpelling f :: post) = getParams W (pre ++ f :: post) ∧
      main W E (pre ++ otherSpelling f :: post) = main W E (pre ++ f :: post) := by
  obtain ⟨a, pre', rfl, hp⟩ := odd_length_cases pre h
  have hg : getParams W (a :: pre' ++ otherSpelling f :: post) =
      getParams W (a :: pre' ++ f :: post) := by
    rw [List.cons_append, List.cons_append, getParams_cons, getParams_cons,
      getParamsLoop_append W pre' _ hp, getParamsLoop_append W pre' _ hp]
    congr 1
    funext q
    exact getParamsLoop_otherSpelling W _ f post q
  exact ⟨hg, main_congr W E _ _ (by rw [hg]) rfl⟩

theorem getParams_otherSpelling_witness :
    ["prog".toList, "-e".toList, "2".toList].length % 2 = 1 ∧
      getParams exampleWorld
          (["prog".toList, "-e".toList, "2".toList] ++ otherSpelling "-m".toList ::
            ["abc".toList]) =
        getParams exampleWorld
          (["prog".toList, "-e".toList, "2".toList] ++ "-m".toList :: ["abc".toList]) ∧
      main exampleWorld exampleEngine
          (["prog".toList, "-e".toList, "2".toList] ++ otherSpelling "-m".toList ::
            ["abc".toList]) =
        main exampleWorld exampleEngine
          (["prog".toList, "-e".toList, "2".toList] ++ "-m".toList :: ["abc".toList]) :=
  ⟨by decide, getParams_otherSpelling exampleWorld exampleEngine
    ["prog".toList, "-e".toList, "2".toList] "-m".toList ["abc".toList] (by decide)⟩

/-! ## Unrecognised flags -/

/-- C7. A string at a flag position that is none of the ten recognised
spellings changes no field: the body of the loop returns the record it got;
parsing ends on the same result with or without it as last string; removing
it together with the string that follows it gives the same result of
`getParams` and the same run of `main`, which therefore reports nothing
about it. -/
theorem getParams_unrecognised_ignored {D : Type} (W : World) (E : Engine D)
    (pre : List CStr) (f v : CStr) (post : List CStr)
    (hpre : pre.length % 2 = 1) (hf : recognised f = false) :
    (∀ (i : Nat) (value : Option CStr) (p : parameters),
        (getParamsBody W i f value p).result = .ok p) ∧
      (getParams W (pre ++ [f])).result = (getParams W pre).result ∧
      (getParams W (pre ++ f :: v :: post)).result = (getParams W (pre ++ post)).result ∧
      main W E (pre ++ [f]) = main W E pre ∧
      main W E (pre ++ f :: v :: post) = main W E (pre ++ post) := by
  obtain ⟨a, pre', rfl, hp⟩ := odd_length_cases pre hpre
  have h1 : (getParams W (a :: pre' ++ [f])).result = (getParams W (a :: pre')).result := by
    rw [List.cons_append, getParams_cons, getParams_cons, getParamsLoop_append W pre' _ hp,
      Run.andThen_result]
    cases (getParamsLoop W 1 pre' (parameters.init W.stack)).result with
    | ok q => simp only [getParamsLoop_single, body_other W _ f none q hf]
    | fault e => rfl
  have h2 : (getParams W (a :: pre' ++ f :: v :: post)).result =
      (getParams W (a :: pre' ++ post)).result := by
    rw [List.cons_append, List.cons_append, getParams_cons, getParams_cons,
      getParamsLoop_append W pre' _ hp, getParamsLoop_append W pre' _ hp, Run.andThen_result,
      Run.andThen_result]
    cases (getParamsLoop W 1 pre' (parameters.init W.stack)).result with
    | ok q =>
      simp only [getParamsLoop_pair, body_other W _ f (some v) q hf, Run.andThen_ok]
      exact getParamsLoop_result_index W post _ _ q
    | fault e => rfl
  refine ⟨fun i value p => by rw [body_other W i f value p hf], h1, h2, ?_, ?_⟩
  · exact main_congr W E _ _ h1 rfl
  · exact main_congr W E _ _ h2 rfl

theorem getParams_unrecognised_ignored_witness :
    ["prog".toList].length % 2 = 1 ∧ recognised "--verbose".toList = false ∧
      main exampleWorld exampleEngine
          (["prog".toList] ++ "--verbose".toList :: "3".toList :: ["-n".toList, "7".toList]) =
        main exampleWorld exampleEngine (["prog".toList] ++ ["-n".toList, "7".toList]) :=
  ⟨by decide, by decide,
    (getParams_unrecognised_ignored exampleWorld exampleEngine ["prog".toList]
      "--verbose".toList "3".toList ["-n".toList, "7".toList] (by decide) (by decide)).2.2.2.2⟩

/-! ## The indices of `argv` that are read -/

theorem Run.mem_andThen_reads (r : Run) (k : parameters → Run) (j : Nat)
    (h : j ∈ (r.andThen k).reads) :
    j ∈ r.reads ∨ ∃ p, r.result = .ok p ∧ j ∈ (k p).reads := by
  obtain ⟨reads, result⟩ := r
  cases result with
  | ok p =>
    simp only [Run.andThen, List.mem_append] at h
    rcases h with h | h
    · exact Or.inl h
    · exact Or.inr ⟨p, rfl, h⟩
  | fault f => exact Or.inl h

theorem isValueFlag_cases (f : CStr) :
    isValueFlag f = true ↔
      (isModel f = true ∨ isEnergy f = true ∨ isEvents f = true ∨ isOutput f = true) := by
  simp [isValueFlag, or_assoc]

/-- A flag that takes a value and has none: the body reads `argv[i + 1]`,
the null pointer, and faults. -/
theorem body_value_flag_none (W : World) (i : Nat) (f : CStr) (p : parameters)
    (h : isValueFlag f = true) :
    getParamsBody W i f none p = ⟨[i, i + 1], .fault .nullArgument⟩ := by
  rcases (isValueFlag_cases f).1 h with h | h | h | h
  · rw [body_model W i f none p h]; simp [Run.andThen, ifModel, h]
  · rw [body_energy W i f none p h]; simp [Run.andThen, ifEnergy, h]
  · rw [body_events W i f none p h]; simp [Run.andThen, ifEvents, h]
  · rw [body_output W i f none p h]; simp [Run.andThen, ifOutput, h]

theorem ifHelp_reads (f : CStr) (p : parameters) : (ifHelp f p).reads = [] := by
  unfold ifHelp
  split
  · split <;> rfl
  · rfl

/-- A string that is no value flag: the body reads `argv[i]` only. -/
theorem body_reads_no_value (W : World) (i : Nat) (f : CStr) (v : Option CStr) (p : parameters)
    (h : isValueFlag f = false) : (getParamsBody W i f v p).reads = [i] := by
  by_cases hh : isHelp f = true
  · rw [body_help W i f v p hh, Run.andThen_ok, ifHelp_reads]
    rfl
  · have : recognised f = false := by simp [recognised, h, hh]
    rw [body_other W i f v p this]

/-- With its value present, the body reads `argv[i]` and at most `argv[i + 1]`. -/
theorem body_reads_some (W : World) (i : Nat) (f v : CStr) (p : parameters) :
    ∀ j ∈ (getParamsBody W i f (some v) p).reads, j = i ∨ j = i + 1 := by
  intro j hj
  rcases recognised_cases f with h | h | h | h | h | h
  · rw [body_help W i f _ p h, Run.andThen_ok, ifHelp_reads] at hj
    simp at hj
    exact Or.inl hj
  · rw [body_model W i f _ p h] at hj
    simp only [Run.andThen, ifModel, h, if_true] at hj
    cases hs : strcpy Field.model p.header.model v <;> simp [hs] at hj <;> exact hj
  · rw [body_energy W i f _ p h] at hj
    simp only [Run.andThen, ifEnergy, h, if_true] at hj
    cases hs : W.stod v <;> simp [hs] at hj <;> exact hj
  · rw [body_events W i f _ p h] at hj
    simp only [Run.andThen, ifEvents, h, if_true] at hj
    cases hs : W.stol v <;> simp [hs] at hj <;> exact hj
  · rw [body_output W i f _ p h] at hj
    simp only [Run.andThen, ifOutput, h, if_true] at hj
    cases hs : strcpy Field.outputFile p.outputFile v <;> simp [hs] at hj <;> exact hj
  · rw [body_other W i f _ p h] at hj
    simp at hj
    exact Or.inl hj

/-- Over whole pairs the loop reads inside the pairs only. -/
theorem getParamsLoop_reads_lt (W : World) (rest : List CStr) (h : rest.length % 2 = 0) :
    ∀ (i : Nat) (p : parameters), ∀ j ∈ (getParamsLoop W i rest p).reads, j < i + rest.length := by
  refine pairs_induction (P := fun rest => ∀ (i : Nat) (p : parameters),
    ∀ j ∈ (getParamsLoop W i rest p).reads, j < i + rest.length) ?_ ?_ rest h
  · intro i p j hj
    simp [getParamsLoop_nil] at hj
  · intro a b l ih i p j hj
    rw [getParamsLoop_pair] at hj
    rcases Run.mem_andThen_reads _ _ j hj with hj | ⟨q, _, hj⟩
    · rcases body_reads_some W i a b p j hj with e | e <;> simp [e]
    · have := ih (i + 2) q j hj
      simp only [List.length_cons]
      omega

/-- C9, as amended. When every flag is followed by a value (the length of
`argv` is odd), `getParams` reads `argv` below `argc` only. With one more
string `f` at the last flag position and no value after it: if `f` is one of
the eight spellings that take a value and the strings before it are parsed
without fault, `getParams` reads `argv[argc]`, the null pointer, as the value
and faults; if `f` is `-h`, `--help` or not recognised, it still reads below
`argc` only. -/
theorem getParams_reads (W : World) (pre : List CStr) (f : CStr) (hpre : pre.length % 2 = 1) :
    (∀ j ∈ (getParams W pre).reads, j < pre.length) ∧
      (isValueFlag f = true → ∀ p, (getParams W pre).result = .ok p →
        (pre ++ [f]).length ∈ (getParams W (pre ++ [f])).reads ∧
          (getParams W (pre ++ [f])).result = .fault .nullArgument) ∧
      (isValueFlag f = false →
        ∀ j ∈ (getParams W (pre ++ [f])).reads, j < (pre ++ [f]).length) := by
  obtain ⟨a, pre', rfl, hp⟩ := odd_length_cases pre hpre
  have hlt : ∀ j ∈ (getParams W (a :: pre')).reads, j < (a :: pre').length := by
    intro j hj
    rw [getParams_cons] at hj
    have := getParamsLoop_reads_lt W pre' hp 1 _ j hj
    simp only [List.length_cons]
    omega
  have happ : getParams W (a :: pre' ++ [f]) =
      (getParams W (a :: pre')).andThen (getParamsBody W (1 + pre'.length) f none) := by
    rw [List.cons_append, getParams_cons, getParams_cons, getParamsLoop_append W pre' _ hp]
    congr 1
  refine ⟨hlt, ?_, ?_⟩
  · intro hv p hres
    rcases hg : getParams W (a :: pre') with ⟨reads, result⟩
    rw [hg] at hres
    simp only at hres
    subst hres
    rw [happ, hg, Run.andThen_ok, body_value_flag_none W _ f p hv]
    refine ⟨?_, rfl⟩
    simp only [List.length_append, List.length_cons, List.length_nil, List.mem_append,
      List.mem_cons]
    right; right; left
    omega
  · intro hv j hj
    rw [happ] at hj
    have hlen : (a :: pre' ++ [f]).length = (a :: pre').length + 1 := by simp
    rcases Run.mem_andThen_reads _ _ j hj with hj | ⟨q, _, hj⟩
    · have := hlt j hj
      omega
    · rw [body_reads_no_value W _ f none q hv] at hj
      simp only [List.mem_singleton] at hj
      simp only [List.length_cons] at hlen ⊢
      simp only [List.length_append, List.length_cons, List.length_nil]
      omega

theorem getParams_reads_witness :
    ["prog".toList, "-n".toList, "7".toList].length % 2 = 1 ∧
      isValueFlag "--output".toList = true ∧
      (["prog".toList, "-n".toList, "7".toList] ++ ["--output".toList]).length ∈
        (getParams exampleWorld
          (["prog".toList, "-n".toList, "7".toList] ++ ["--output".toList])).reads ∧
      (getParams exampleWorld
          (["prog".toList, "-n".toList, "7".toList] ++ ["--output".toList])).result =
        .fault .nullArgument :=
  ⟨by decide, by decide,
    (getParams_reads exampleWorld ["prog".toList, "-n".toList, "7".toList] "--output".toList
      (by decide)).2.1 (by decide) _ rfl⟩

/-- C9 (counterexample). The argument list `prog -h` ends on a flag with no
value after it, and `getParams` reads `argv[1]` only: `argv[argc]`, at index
2, is not read, and the record is returned. -/
theorem getParams_trailing_help_reads :
    (getParams exampleWorld ["prog".toList, "-h".toList]).reads = [1] ∧
      ["prog".toList, "-h".toList].length ∉
        (getParams exampleWorld ["prog".toList, "-h".toList]).reads ∧
      ((getParams exampleWorld ["prog".toList, "-h".toList]).result.params?).isSome = true := by
  decide

/-! ## The last occurrence of a flag wins -/

theorem NUL_mem_strcpyCells (dst : List Char) (src : CStr) : NUL ∈ strcpyCells dst src := by
  simp [strcpyCells]

theorem wellFormed_init (stack : Nat → Char) : (parameters.init stack).WellFormed := by
  have h255 : (arrayInit 255 "geant4-goupil-validation.bin".toList).length = 255 := by
    simp only [arrayInit, List.length_append, List.length_replicate]
    decide
  refine ⟨⟨rfl, ?_, h255⟩, ?_, NUL_mem_strcpyCells _ _, ?_⟩
  · exact (length_strcpyCells _ _ (by rw [List.length_map, List.length_range]; decide)).trans
      (by rw [List.length_map, List.length_range])
  · exact List.mem_append_right _ (List.mem_replicate.2 ⟨by decide, rfl⟩)
  · exact List.mem_append_right _ (List.mem_replicate.2 ⟨by decide, rfl⟩)

theorem lastValue_cons (test : CStr → Bool) (f v : CStr) (ps : List (CStr × CStr)) :
    lastValue test ((f, v) :: ps) =
      match lastValue test ps with
      | some x => some x
      | none => if test f = true then some v else none := by
  unfold lastValue
  by_cases h : test f = true
  · have e : List.filter (fun fv : CStr × CStr => test fv.1) ((f, v) :: ps) =
        (f, v) :: List.filter (fun fv => test fv.1) ps := by
      rw [List.filter_cons]; simp [h]
    rw [e, List.getLast?_cons]
    generalize (List.filter (fun fv : CStr × CStr => test fv.1) ps).getLast? = o
    cases o <;> simp [h]
  · have e : List.filter (fun fv : CStr × CStr => test fv.1) ((f, v) :: ps) =
        List.filter (fun fv => test fv.1) ps := by
      rw [List.filter_cons]; simp [h]
    rw [e]
    generalize (List.filter (fun fv : CStr × CStr => test fv.1) ps).getLast? = o
    cases o <;> simp [h]

/-- The body of the loop on a flag and its value, when the value fits its
array and its number is read: the field of the flag takes the value, the other
fields stay. -/
theorem body_pair (W : World) (i : Nat) (f v : CStr) (p : parameters)
    (hwf : p.WellFormed) (hnul : NUL ∉ v)
    (hm : isModel f = true → v.length < 32) (ho : isOutput f = true → v.length < 255)
    (he : isEnergy f = true → (W.stod v).isSome = true)
    (hn : isEvents f = true → (W.stol v).isSome = true) :
    ∃ q, (getParamsBody W i f (some v) p).result = .ok q ∧ q.WellFormed ∧
      cstr q.header.model = (if isModel f = true then v else cstr p.header.model) ∧
      some q.header.energy = (if isEnergy f = true then W.stod v else some p.header.energy) ∧
      some q.header.events = (if isEvents f = true then W.stol v else some p.header.events) ∧
      cstr q.outputFile = (if isOutput f = true then v else cstr p.outputFile) := by
  obtain ⟨⟨l1, l2, l3⟩, n1, n2, n3⟩ := hwf
  rcases recognised_cases f with h | h | h | h | h | h
  · obtain ⟨e1, e2, e3, e4⟩ := help_excludes f h
    have hs : strcpy .help p.help "-h".toList = .ok (strcpyCells p.help "-h".toList) :=
      strcpy_of_fits _ _ _ (by rw [l1]; decide)
    refine ⟨{ p with help := strcpyCells p.help "-h".toList }, ?_, ?_, ?_⟩
    · rw [body_help W i f _ p h, Run.andThen_ok]
      simp only [ifHelp, h, if_true, hs]
    · exact ⟨⟨by rw [length_strcpyCells _ _ (by rw [l1]; decide)]; exact l1, l2, l3⟩,
        NUL_mem_strcpyCells _ _, n2, n3⟩
    · simp [e1, e2, e3, e4]
  · obtain ⟨e1, e2, e3, e4⟩ := model_excludes f h
    have hfit : v.length + 1 ≤ p.header.model.length := by have := hm h; omega
    have hs := strcpy_of_fits .model p.header.model v hfit
    refine ⟨{ p with header := { p.header with model := strcpyCells p.header.model v } },
      ?_, ?_, ?_⟩
    · rw [body_model W i f _ p h, Run.andThen_ok]
      simp only [ifModel, h, if_true, hs]
    · exact ⟨⟨l1, by rw [length_strcpyCells _ _ hfit]; exact l2, l3⟩, n1,
        NUL_mem_strcpyCells _ _, n3⟩
    · simp [h, e2, e3, e4, cstr_strcpyCells _ _ hnul]
  · obtain ⟨e1, e2, e3, e4⟩ := energy_excludes f h
    obtain ⟨d, hd⟩ := Option.isSome_iff_exists.1 (he h)
    refine ⟨{ p with header := { p.header with energy := d } }, ?_, ?_, ?_⟩
    · rw [body_energy W i f _ p h, Run.andThen_ok]
      simp only [ifEnergy, h, if_true, hd]
    · exact ⟨⟨l1, l2, l3⟩, n1, n2, n3⟩
    · simp [h, e2, e3, e4, hd]
  · obtain ⟨e1, e2, e3, e4⟩ := events_excludes f h
    obtain ⟨d, hd⟩ := Option.isSome_iff_exists.1 (hn h)
    refine ⟨{ p with header := { p.header with events := d } }, ?_, ?_, ?_⟩
    · rw [body_events W i f _ p h, Run.andThen_ok]
      simp only [ifEvents, h, if_true, hd]
    · exact ⟨⟨l1, l2, l3⟩, n1, n2, n3⟩
    · simp [h, e2, e3, e4, hd]
  · obtain ⟨e1, e2, e3, e4⟩ := output_excludes f h
    have hfit : v.length + 1 ≤ p.outputFile.length := by have := ho h; omega
    have hs := strcpy_of_fits .outputFile p.outputFile v hfit
    refine ⟨{ p with outputFile := strcpyCells p.outputFile v }, ?_, ?_, ?_⟩
    · rw [body_output W i f _ p h, Run.andThen_ok]
      simp only [ifOutput, h, if_true, hs]
    · exact ⟨⟨l1, l2, by rw [length_strcpyCells _ _ hfit]; exact l3⟩, n1, n2,
        NUL_mem_strcpyCells _ _⟩
    · simp [h, e2, e3, e4, cstr_strcpyCells _ _ hnul]
  · obtain ⟨e1, e2, e3, e4, e5⟩ := recognised_eq_false f h
    refine ⟨p, by rw [body_other W i f _ p h], ⟨⟨l1, l2, l3⟩, n1, n2, n3⟩, ?_⟩
    simp [e2, e3, e4, e5]

theorem getParamsLoop_pairs (W : World) (rest : List CStr) (h : rest.length % 2 = 0) :
    ∀ (i : Nat) (p : parameters), p.WellFormed → (∀ fv ∈ pairsOf rest, Storable W fv) →
      ∃ q, (getParamsLoop W i rest p).result = .ok q ∧ q.WellFormed ∧
        cstr q.header.model = (lastValue isModel (pairsOf rest)).getD (cstr p.header.model) ∧
        (lastValue isEnergy (pairsOf rest)).elim (some p.header.energy) W.stod =
          some q.header.energy ∧
        (lastValue isEvents (pairsOf rest)).elim (some p.header.events) W.stol =
          some q.header.events ∧
        cstr q.outputFile = (lastValue isOutput (pairsOf rest)).getD (cstr p.outputFile) := by
  refine pairs_induction (P := fun rest => ∀ (i : Nat) (p : parameters), p.WellFormed →
    (∀ fv ∈ pairsOf rest, Storable W fv) →
      ∃ q, (getParamsLoop W i rest p).result = .ok q ∧ q.WellFormed ∧
        cstr q.header.model = (lastValue isModel (pairsOf rest)).getD (cstr p.header.model) ∧
        (lastValue isEnergy (pairsOf rest)).elim (some p.header.energy) W.stod =
          some q.header.energy ∧
        (lastValue isEvents (pairsOf rest)).elim (some p.header.events) W.stol =
          some q.header.events ∧
        cstr q.outputFile = (lastValue isOutput (pairsOf rest)).getD (cstr p.outputFile))
    ?_ ?_ rest h
  · intro i p hwf _
    exact ⟨p, rfl, hwf, rfl, rfl, rfl, rfl⟩
  · intro f v l ih i p hwf hs
    obtain ⟨hnul, hm, ho, he, hn⟩ := hs (f, v) (by simp [pairsOf])
    obtain ⟨q, hq, hqwf, q1, q2, q3, q4⟩ := body_pair W i f v p hwf hnul hm ho he hn
    obtain ⟨r, hr, hrwf, r1, r2, r3, r4⟩ :=
      ih (i + 2) q hqwf (fun fv hfv => hs fv (by simp [pairsOf, hfv]))
    refine ⟨r, ?_, hrwf, ?_, ?_, ?_, ?_⟩
    · rw [getParamsLoop_pair, Run.andThen_result, hq]
      exact hr
    · rw [r1, q1]
      simp only [pairsOf, lastValue_cons]
      cases lastValue isModel (pairsOf l) <;> by_cases hf : isModel f = true <;> simp [hf]
    · rw [← r2, q2]
      simp only [pairsOf, lastValue_cons]
      cases lastValue isEnergy (pairsOf l) <;> by_cases hf : isEnergy f = true <;> simp [hf]
    · rw [← r3, q3]
      simp only [pairsOf, lastValue_cons]
      cases lastValue isEvents (pairsOf l) <;> by_cases hf : isEvents f = true <;> simp [hf]
    · rw [r4, q4]
      simp only [pairsOf, lastValue_cons]
      cases lastValue isOutput (pairsOf l) <;> by_cases hf : isOutput f = true <;> simp [hf]

/-- C2, as amended. For an argument list made of flag/value pairs whose
values the parser can take (each is a C string, a model name has at most 31
characters, an output path at most 254, the values of the energy and events
flags are converted by `std::stod` and `std::stol` without exception),
`getParams` returns a record in which the model and the output file are the
value that follows the last occurrence of the flag, under either spelling, the
energy and the events are the conversion of that value, and each is the
default when the flag does not occur. -/
theorem getParams_last_value (W : World) (argv : List CStr) (hpairs : argv.length % 2 = 1)
    (hs : ∀ fv ∈ pairsOf (argv.drop 1), Storable W fv) :
    ∃ p, (getParams W argv).result = .ok p ∧
      cstr p.header.model =
        (lastValue isModel (pairsOf (argv.drop 1))).getD "standard".toList ∧
      (lastValue isEnergy (pairsOf (argv.drop 1))).elim (some Double.one) W.stod =
        some p.header.energy ∧
      (lastValue isEvents (pairsOf (argv.drop 1))).elim (some 1000000) W.stol =
        some p.header.events ∧
      cstr p.outputFile =
        (lastValue isOutput (pairsOf (argv.drop 1))).getD
          "geant4-goupil-validation.bin".toList := by
  obtain ⟨a, rest, rfl, hp⟩ := odd_length_cases argv hpairs
  simp only [List.drop_succ_cons, List.drop_zero] at hs ⊢
  obtain ⟨q, hq, _, q1, q2, q3, q4⟩ :=
    getParamsLoop_pairs W rest hp 1 _ (wellFormed_init W.stack) hs
  rw [cstr_init_model] at q1
  rw [cstr_init_outputFile] at q4
  exact ⟨q, hq, q1, q2, q3, q4⟩

theorem getParams_last_value_witness :
    ["prog".toList, "-m".toList, "penelope".toList, "-e".toList, "2".toList, "--model".toList,
        "livermore".toList, "-n".toList, "7".toList].length % 2 = 1 ∧
      ∃ p, (getParams exampleWorld
          ["prog".toList, "-m".toList, "penelope".toList, "-e".toList, "2".toList,
            "--model".toList, "livermore".toList, "-n".toList, "7".toList]).result = .ok p ∧
        cstr p.header.model = "livermore".toList ∧
        some (Double.mk false 1024 0) = some p.header.energy ∧
        some 7 = some p.header.events ∧
        cstr p.outputFile = "geant4-goupil-validation.bin".toList :=
  ⟨by decide, getParams_last_value exampleWorld
    ["prog".toList, "-m".toList, "penelope".toList, "-e".toList, "2".toList, "--model".toList,
      "livermore".toList, "-n".toList, "7".toList] (by decide) (by
        intro fv hfv
        simp only [List.drop_succ_cons, List.drop_zero, pairsOf, List.mem_cons,
          List.mem_singleton, List.not_mem_nil, or_false] at hfv
        rcases hfv with rfl | rfl | rfl | rfl <;> unfold Storable <;> decide)⟩

/-- C2 (counterexample). The argument list `prog -n x` is made of one
flag/value pair, and `getParams` returns no record: `std::stol` throws on
`x`, so the events field never takes the value that follows `-n`. -/
theorem getParams_invalid_number :
    ["prog".toList, "-n".toList, "x".toList].length % 2 = 1 ∧
      lastValue isEvents (pairsOf (["prog".toList, "-n".toList, "x".toList].drop 1)) =
        some "x".toList ∧
      exampleWorld.stol "x".toList = none ∧
      getParams exampleWorld ["prog".toList, "-n".toList, "x".toList] =
        ⟨[1, 2], .fault .invalidNumber⟩ := by
  decide

/-! ## The header written to the output file -/

theorem strcpy_ok (field : Field) (dst : List Char) (src : CStr) (a : List Char)
    (h : strcpy field dst src = .ok a) : a.length = dst.length ∧ NUL ∈ a := by
  unfold strcpy at h
  split at h
  · rename_i hfit
    injection h with h
    subst h
    exact ⟨length_strcpyCells _ _ hfit, NUL_mem_strcpyCells _ _⟩
  · cases h

theorem ifHelp_wellFormed (f : CStr) (p q : parameters) (hwf : p.WellFormed)
    (h : (ifHelp f p).result = .ok q) : q.WellFormed := by
  obtain ⟨⟨l1, l2, l3⟩, n1, n2, n3⟩ := hwf
  unfold ifHelp at h
  split at h
  · split at h
    · rename_i a ha
      obtain ⟨e1, e2⟩ := strcpy_ok _ _ _ _ ha
      injection h with h
      subst h
      exact ⟨⟨e1.trans l1, l2, l3⟩, e2, n2, n3⟩
    · cases h
  · injection h with h
    subst h
    exact ⟨⟨l1, l2, l3⟩, n1, n2, n3⟩

theorem ifModel_wellFormed (i : Nat) (f : CStr) (v : Option CStr) (p q : parameters)
    (hwf : p.WellFormed) (h : (ifModel i f v p).result = .ok q) : q.WellFormed := by
  obtain ⟨⟨l1, l2, l3⟩, n1, n2, n3⟩ := hwf
  unfold ifModel at h
  split at h
  · split at h
    · cases h
    · split at h
      · rename_i a ha
        obtain ⟨e1, e2⟩ := strcpy_ok _ _ _ _ ha
        injection h with h
        subst h
        exact ⟨⟨l1, e1.trans l2, l3⟩, n1, e2, n3⟩
      · cases h
  · injection h with h
    subst h
    exact ⟨⟨l1, l2, l3⟩, n1, n2, n3⟩

theorem ifEnergy_wellFormed (W : World) (i : Nat) (f : CStr) (v : Option CStr)
    (p q : parameters) (hwf : p.WellFormed) (h : (ifEnergy W i f v p).result = .ok q) :
    q.WellFormed := by
  unfold ifEnergy at h
  split at h
  · split at h
    · cases h
    · split at h
      · injection h with h
        subst h
        exact hwf
      · cases h
  · injection h with h
    subst h
    exact hwf

theorem ifEvents_wellFormed (W : World) (i : Nat) (f : CStr) (v : Option CStr)
    (p q : parameters) (hwf : p.WellFormed) (h : (ifEvents W i f v p).result = .ok q) :
    q.WellFormed := by
  unfold ifEvents at h
  split at h
  · split at h
    · cases h
    · split at h
      · injection h with h
        subst h
        exact hwf
      · cases h
  · injection h with h
    subst h
    exact hwf

theorem ifOutput_wellFormed (i : Nat) (f : CStr) (v : Option CStr) (p q : parameters)
    (hwf : p.WellFormed) (h : (ifOutput i f v p).result = .ok q) : q.WellFormed := by
  obtain ⟨⟨l1, l2, l3⟩, n1, n2, n3⟩ := hwf
  unfold ifOutput at h
  split at h
  · split at h
    · cases h
    · split at h
      · rename_i a ha
        obtain ⟨e1, e2⟩ := strcpy_ok _ _ _ _ ha
        injection h with h
        subst h
        exact ⟨⟨l1, l2, e1.trans l3⟩, n1, n2, e2⟩
      · cases h
  · injection h with h
    subst h
    exact ⟨⟨l1, l2, l3⟩, n1, n2, n3⟩

/-- Sequencing keeps what each part keeps. -/
theorem Run.andThen_keeps (P : parameters → Prop) (r : Run) (k : parameters → Run)
    (hr : ∀ p, r.result = .ok p → P p) (hk : ∀ p q, P p → (k p).result = .ok q → P q)
    (q : parameters) (h : (r.andThen k).result = .ok q) : P q := by
  rw [Run.andThen_result] at h
  cases hres : r.result with
  | ok p =>
    rw [hres] at h
    exact hk p q (hr p hres) h
  | fault f =>
    rw [hres] at h
    cases h

theorem getParamsBody_wellFormed (W : World) (i : Nat) (f : CStr) (v : Option CStr)
    (p q : parameters) (hwf : p.WellFormed) (h : (getParamsBody W i f v p).result = .ok q) :
    q.WellFormed := by
  unfold getParamsBody at h
  refine Run.andThen_keeps parameters.WellFormed _ _ ?_ (fun a b => ifOutput_wellFormed i f v a b)
    q h
  refine Run.andThen_keeps parameters.WellFormed _ _ ?_
    (fun a b => ifEvents_wellFormed W i f v a b)
  refine Run.andThen_keeps parameters.WellFormed _ _ ?_
    (fun a b => ifEnergy_wellFormed W i f v a b)
  refine Run.andThen_keeps parameters.WellFormed _ _ ?_ (fun a b => ifModel_wellFormed i f v a b)
  refine Run.andThen_keeps parameters.WellFormed _ _ ?_ (fun a b => ifHelp_wellFormed f a b)
  intro a ha
  injection ha with ha
  subst ha
  exact hwf

theorem getParamsLoop_wellFormed (W : World) (rest : List CStr) :
    ∀ (i : Nat) (p q : parameters), p.WellFormed → (getParamsLoop W i rest p).result = .ok q →
      q.WellFormed := by
  refine two_step_induction (P := fun rest => ∀ (i : Nat) (p q : parameters), p.WellFormed →
    (getParamsLoop W i rest p).result = .ok q → q.WellFormed) ?_ ?_ ?_ rest
  · intro i p q hwf h
    injection h with h
    subst h
    exact hwf
  · intro a i p q hwf h
    rw [getParamsLoop_single] at h
    exact getParamsBody_wellFormed W i a none p q hwf h
  · intro a b l ih i p q hwf h
    rw [getParamsLoop_pair] at h
    exact Run.andThen_keeps parameters.WellFormed _ _
      (fun c hc => getParamsBody_wellFormed W i a (some b) p c hwf hc)
      (fun c d hc hd => ih (i + 2) c d hc hd) q h

/-- Every record `getParams` returns is well formed. -/
theorem getParams_wellFormed (W : World) (argv : List CStr) (p : parameters)
    (h : (getParams W argv).result = .ok p) : p.WellFormed :=
  getParamsLoop_wellFormed W _ 1 _ p (wellFormed_init W.stack) h

theorem cstr_length_lt (a : List Char) (h : NUL ∈ a) : (cstr a).length < a.length := by
  induction a with
  | nil => simp at h
  | cons c a ih =>
    by_cases hc : c = NUL
    · subst hc
      simp [cstr, List.takeWhile]
    · have hb : (c != NUL) = true := by simpa using hc
      have : NUL ∈ a := by
        rcases List.mem_cons.1 h with e | e
        · exact absurd e.symm hc
        · exact e
      have := ih this
      simp only [cstr] at this ⊢
      simp [List.takeWhile, hb]
      omega

theorem take_cstr (a : List Char) (h : NUL ∈ a) :
    a.take ((cstr a).length + 1) = cstr a ++ [NUL] := by
  induction a with
  | nil => simp at h
  | cons c a ih =>
    by_cases hc : c = NUL
    · subst hc
      simp [cstr, List.takeWhile]
    · have hb : (c != NUL) = true := by simpa using hc
      have : NUL ∈ a := by
        rcases List.mem_cons.1 h with e | e
        · exact absurd e.symm hc
        · exact e
      have := ih this
      simp only [cstr] at this ⊢
      simp [List.takeWhile, hb, this]

theorem length_leBytes (k n : Nat) : (leBytes k n).length = k := by
  simp [leBytes]

theorem length_headerBytes (h : header) (hl : h.model.length = 32) :
    (headerBytes h).length = 48 := by
  simp [headerBytes, longBytes, length_leBytes, hl]

theorem headerWritten_main {D : Type} (W : World) (E : Engine D) (argv : List CStr)
    (b : List Char) (h : headerWritten (main W E argv).trace = some b) :
    ∃ p, (getParams W argv).result = .ok p ∧ b = headerBytes p.header := by
  unfold main at h
  cases hres : (getParams W argv).result with
  | fault f =>
    rw [hres] at h
    simp [headerWritten] at h
  | ok p =>
    rw [hres] at h
    refine ⟨p, rfl, ?_⟩
    by_cases hr : rejected p = true
    · simp [hr, headerWritten] at h
    · by_cases ho : W.canOpen (cstr p.outputFile) = true
      · by_cases ht : E.tableOpens (tableName (cstr p.header.model)) = true
        · simp [hr, mainRun, ho, ht, headerWritten] at h
          exact h.symm
        · simp [hr, mainRun, ho, ht, headerWritten] at h
          exact h.symm
      · simp [hr, mainRun, ho, headerWritten] at h

/-- C5, as amended. When two argument lists are parsed to the same model
name, energy and event count, the two headers `main` writes have 48 bytes
each and agree on the model name with its terminator and on the 16 bytes of
the energy and the events. Nothing is said of the bytes of the model field
behind the terminator, which are what the stack, the constructor and earlier
`-m` values left there. -/
theorem header_bytes_up_to_terminator {D₁ D₂ : Type} (W₁ W₂ : World) (E₁ : Engine D₁)
    (E₂ : Engine D₂) (argv₁ argv₂ : List CStr) (p₁ p₂ : parameters) (b₁ b₂ : List Char)
    (h₁ : (getParams W₁ argv₁).result = .ok p₁) (h₂ : (getParams W₂ argv₂).result = .ok p₂)
    (w₁ : headerWritten (main W₁ E₁ argv₁).trace = some b₁)
    (w₂ : headerWritten (main W₂ E₂ argv₂).trace = some b₂)
    (hm : cstr p₁.header.model = cstr p₂.header.model)
    (he : p₁.header.energy = p₂.header.energy) (hn : p₁.header.events = p₂.header.events) :
    b₁.length = 48 ∧ b₂.length = 48 ∧
      b₁.take ((cstr p₁.header.model).length + 1) = cstr p₁.header.model ++ [NUL] ∧
      b₂.take ((cstr p₁.header.model).length + 1) = cstr p₁.header.model ++ [NUL] ∧
      b₁.drop 32 = b₂.drop 32 := by
  obtain ⟨q₁, hq₁, rfl⟩ := headerWritten_main W₁ E₁ argv₁ b₁ w₁
  obtain ⟨q₂, hq₂, rfl⟩ := headerWritten_main W₂ E₂ argv₂ b₂ w₂
  rw [h₁] at hq₁
  rw [h₂] at hq₂
  injection hq₁ with hq₁
  injection hq₂ with hq₂
  subst hq₁ hq₂
  obtain ⟨⟨_, l₁, _⟩, _, n₁, _⟩ := getParams_wellFormed W₁ argv₁ p₁ h₁
  obtain ⟨⟨_, l₂, _⟩, _, n₂, _⟩ := getParams_wellFormed W₂ argv₂ p₂ h₂
  have c₁ := cstr_length_lt _ n₁
  have c₂ := cstr_length_lt _ n₂
  refine ⟨length_headerBytes _ l₁, length_headerBytes _ l₂, ?_, ?_, ?_⟩
  · unfold headerBytes
    rw [List.append_assoc, List.take_append_of_le_length (by omega), take_cstr _ n₁]
  · unfold headerBytes
    rw [hm, List.append_assoc, List.take_append_of_le_length (by omega), take_cstr _ n₂]
  · unfold headerBytes
    rw [List.append_assoc, List.append_assoc, List.drop_left' l₁, List.drop_left' l₂, he, hn]

theorem header_bytes_up_to_terminator_witness :
    ((headerWritten (main exampleWorld exampleEngine
        ["prog".toList, "-m".toList, "abc".toList, "-m".toList, "x".toList]).trace).getD
          []).length = 48 ∧
      ((headerWritten (main exampleWorld exampleEngine
        ["prog".toList, "-m".toList, "x".toList]).trace).getD []).length = 48 ∧
      ((headerWritten (main exampleWorld exampleEngine
        ["prog".toList, "-m".toList, "abc".toList, "-m".toList, "x".toList]).trace).getD
          []).take 2 = ['x', NUL] ∧
      ((headerWritten (main exampleWorld exampleEngine
        ["prog".toList, "-m".toList, "x".toList]).trace).getD []).take 2 = ['x', NUL] ∧
      ((headerWritten (main exampleWorld exampleEngine
        ["prog".toList, "-m".toList, "abc".toList, "-m".toList, "x".toList]).trace).getD
          []).drop 32 =
        ((headerWritten (main exampleWorld exampleEngine
          ["prog".toList, "-m".toList, "x".toList]).trace).getD []).drop 32 :=
  header_bytes_up_to_terminator exampleWorld exampleWorld exampleEngine exampleEngine
    ["prog".toList, "-m".toList, "abc".toList, "-m".toList, "x".toList]
    ["prog".toList, "-m".toList, "x".toList]
    (((getParams exampleWorld
      ["prog".toList, "-m".toList, "abc".toList, "-m".toList, "x".toList]).result.params?).getD
        (parameters.init exampleWorld.stack))
    (((getParams exampleWorld ["prog".toList, "-m".toList, "x".toList]).result.params?).getD
      (parameters.init exampleWorld.stack))
    ((headerWritten (main exampleWorld exampleEngine
      ["prog".toList, "-m".toList, "abc".toList, "-m".toList, "x".toList]).trace).getD [])
    ((headerWritten (main exampleWorld exampleEngine
      ["prog".toList, "-m".toList, "x".toList]).trace).getD [])
    rfl rfl rfl rfl rfl rfl rfl

/-- C5 (counterexample). The argument lists `prog -m abc -m x` and
`prog -m x` are parsed to the same model name `x`, energy and event count,
and `main` writes two different headers: the third byte of the model field is
`c` after the first list and `a` after the second. -/
theorem header_bytes_depend_on_earlier_model :
    ((getParams exampleWorld
        ["prog".toList, "-m".toList, "abc".toList, "-m".toList, "x".toList]).result.params?).map
          (fun p => (cstr p.header.model, p.header.energy, p.header.events)) =
      ((getParams exampleWorld ["prog".toList, "-m".toList, "x".toList]).result.params?).map
          (fun p => (cstr p.header.model, p.header.energy, p.header.events)) ∧
    (headerWritten (main exampleWorld exampleEngine
        ["prog".toList, "-m".toList, "abc".toList, "-m".toList, "x".toList]).trace).map
          (fun b => b.take 4) = some ['x', NUL, 'c', NUL] ∧
    (headerWritten (main exampleWorld exampleEngine
        ["prog".toList, "-m".toList, "x".toList]).trace).map
          (fun b => b.take 4) = some ['x', NUL, 'a', 'n'] ∧
    headerWritten (main exampleWorld exampleEngine
        ["prog".toList, "-m".toList, "abc".toList, "-m".toList, "x".toList]).trace ≠
      headerWritten (main exampleWorld exampleEngine
        ["prog".toList, "-m".toList, "x".toList]).trace := by
  decide

/-! ## The cross-section table -/

theorem printNames_eq {D : Type} (processes : List String) :
    printNames (D := D) processes = (columns processes).map .name := by
  induction processes with
  | nil => rfl
  | cons n rest ih =>
    unfold printNames columns
    rw [List.filter_cons]
    by_cases h : (n == "Transportation") = true
    · have h' : (n != "Transportation") = false := by simp [bne, h]
      simp only [h, h', if_true]
      exact ih
    · have h' : (n != "Transportation") = true := by simpa [bne] using h
      simp only [h, h', if_true, if_false, List.map_cons]
      rw [ih]; rfl

theorem printSigmas_eq {D : Type} (E : Engine D) (energy : D) (processes : List String) :
    printSigmas E energy processes =
      (columns processes).map (fun n => .sigma (sigmaInBarn E energy n)) := by
  induction processes with
  | nil => rfl
  | cons n rest ih =>
    unfold printSigmas columns
    rw [List.filter_cons]
    by_cases h : (n == "Transportation") = true
    · have h' : (n != "Transportation") = false := by simp [bne, h]
      simp only [h, h', if_true]
      exact ih
    · have h' : (n != "Transportation") = true := by simpa [bne] using h
      simp only [h, h', if_true, if_false, List.map_cons]
      rw [ih]; rfl

/-- A run of prints without newline, then a newline: one line is closed. -/
theorem linesFrom_line {D : Type} (cells : List (Printed D))
    (h : ∀ c ∈ cells, c.isNewline = false) :
    ∀ (line rest : List (Printed D)),
      linesFrom line (cells ++ .newline :: rest) = (line ++ cells) :: linesFrom [] rest := by
  induction cells with
  | nil =>
    intro line rest
    simp [linesFrom, Printed.isNewline]
  | cons c cells ih =>
    intro line rest
    have hc : c.isNewline = false := h c (by simp)
    rw [List.cons_append, linesFrom]
    simp only [hc, Bool.false_eq_true, if_false]
    rw [ih (fun d hd => h d (List.mem_cons_of_mem _ hd))]
    simp

/-- The cells of row `i`: the energy, then one cross section per column. -/
theorem printRow_eq {D : Type} (E : Engine D) (i : Nat) :
    printRow E i =
      (.energy (rowEnergy E i) ::
        (columns E.processes).map (fun n => .sigma (sigmaInBarn E (rowEnergy E i) n))) ++
        [.newline] := by
  unfold printRow
  rw [printSigmas_eq]

theorem lines_printRows {D : Type} (E : Engine D) :
    ∀ (n i : Nat), linesFrom [] (printRows E n i) =
      (List.range' i n).map (fun k => .energy (rowEnergy E k) ::
        (columns E.processes).map (fun m => .sigma (sigmaInBarn E (rowEnergy E k) m))) := by
  intro n
  induction n with
  | zero => intro i; simp [printRows, linesFrom]
  | succ n ih =>
    intro i
    rw [printRows, printRow_eq, List.append_assoc, List.singleton_append, linesFrom_line, ih]
    · simp [List.range'_succ]
    · intro c hc
      rcases List.mem_cons.1 hc with e | e
      · subst e; rfl
      · obtain ⟨m, _, rfl⟩ := List.mem_map.1 e
        rfl

theorem printedBy_append {D : Type} (xs ys : List (Event D)) :
    printedBy (xs ++ ys) = printedBy xs ++ printedBy ys := by
  induction xs with
  | nil => rfl
  | cons x xs ih => cases x <;> simp [printedBy, ih]

theorem printedBy_fprintf {D : Type} (ps : List (Printed D)) :
    printedBy (ps.map .fprintf) = ps := by
  induction ps with
  | nil => rfl
  | cons x xs ih => simp [printedBy, ih]

/-- C8. Whatever the list of registered processes, the prints of lines
94-113 make one header line followed by 401 data rows: the header line is the
title `# energy` and the names of the processes other than `Transportation`,
in order; row `i` is its energy followed by one cross section for each of
these same processes, in the same order. When `main` returns 0, these prints
are what it printed to the cross-section file. -/
theorem cross_section_table {D : Type} (E : Engine D) :
    lines (printTable E) =
        (.title :: (columns E.processes).map .name) ::
          (List.range 401).map (fun i => .energy (rowEnergy E i) ::
            (columns E.processes).map (fun n => .sigma (sigmaInBarn E (rowEnergy E i) n))) ∧
      (lines (printTable E)).length = 1 + 401 ∧
      (∀ i, i < 401 → ∃ row, (lines (printTable E))[i + 1]? = some row ∧
        row.length = 1 + (columns E.processes).length) ∧
      (∀ (W : World) (argv : List CStr), (main W E argv).exit = .returned 0 →
        printedBy (main W E argv).trace = printTable E) := by
  have hl : lines (printTable E) =
      (.title :: (columns E.processes).map .name) ::
        (List.range 401).map (fun i => .energy (rowEnergy E i) ::
          (columns E.processes).map (fun n => .sigma (sigmaInBarn E (rowEnergy E i) n))) := by
    unfold lines printTable
    rw [printNames_eq, List.append_assoc, List.singleton_append,
      linesFrom_line, lines_printRows, List.nil_append, ne, List.range_eq_range']
    intro c hc
    rcases List.mem_cons.1 hc with e | e
    · subst e; rfl
    · obtain ⟨m, _, rfl⟩ := List.mem_map.1 e
      rfl
  refine ⟨hl, ?_, ?_, ?_⟩
  · rw [hl]; simp
  · intro i hi
    rw [hl]
    simp [hi]
    omega
  · intro W argv h
    unfold main at h ⊢
    cases hres : (getParams W argv).result with
    | fault f => rw [hres] at h; simp at h
    | ok p =>
      simp only [hres] at h ⊢
      by_cases hr : rejected p = true
      · simp [hr] at h
      · by_cases ho : W.canOpen (cstr p.outputFile) = true
        · by_cases ht : E.tableOpens (tableName (cstr p.header.model)) = true
          · simp only [hr, mainRun, ho, ht, if_true, if_false, Bool.false_eq_true]
            rw [printedBy_append, printedBy_append, printedBy_fprintf]
            simp [printedBy]
          · simp [hr, mainRun, ho, ht] at h
        · simp [hr, mainRun, ho] at h

theorem cross_section_table_witness :
    (main exampleWorld exampleEngine ["prog".toList]).exit = .returned 0 ∧
      printedBy (main exampleWorld exampleEngine ["prog".toList]).trace =
        printTable exampleEngine :=
  ⟨by decide, (cross_section_table exampleEngine).2.2.2 exampleWorld ["prog".toList]
    (by decide)⟩

/-! ## The energy grid, over the reals -/

theorem eMin_real (E : Engine ℝ) (hA : E.arith = realArith) : eMin E = E.MeV / 1000 := by
  simp only [eMin, hA, realArith]
  norm_num
  ring

theorem eMax_real (E : Engine ℝ) (hA : E.arith = realArith) : eMax E = 10 * E.MeV := by
  simp only [eMax, hA, realArith]
  norm_num

theorem re_real (E : Engine ℝ) (hA : E.arith = realArith) (hM : 0 < E.MeV) :
    re E = Real.log 10000 / 400 := by
  have h : eMax E / eMin E = 10000 := by
    rw [eMin_real E hA, eMax_real E hA]
    field_simp
    ring
  have h' : E.arith.div (eMax E) (eMin E) = 10000 := by
    rw [← h, hA]
    rfl
  unfold re
  rw [h']
  simp only [hA, realArith, ne]
  norm_num

theorem rowEnergy_real (E : Engine ℝ) (hA : E.arith = realArith) (hM : 0 < E.MeV) (i : Nat) :
    rowEnergy E i = E.MeV / 1000 * Real.exp (i * (Real.log 10000 / 400)) := by
  unfold rowEnergy
  rw [re_real E hA hM, eMin_real E hA]
  simp only [hA, realArith, Int.cast_natCast]

/-- C10. Over the reals, with a positive unit `MeV`: the energy of row `i` is
`eMin * exp(i * ln(eMax / eMin) / 400)`, where `eMin` is `1E-03 MeV` and
`eMax` is `1E+01 MeV`; row 0 is `1E-03 MeV` and row 400 is `1E+01 MeV`; the
ratio of two consecutive rows is the same for every row; the energies are
strictly increasing. -/
theorem energy_grid_logarithmic (E : Engine ℝ) (hA : E.arith = realArith) (hM : 0 < E.MeV) :
    eMin E = 1 / 1000 * E.MeV ∧ eMax E = 10 * E.MeV ∧
      (∀ i : Nat, rowEnergy E i =
        eMin E * Real.exp (i * Real.log (eMax E / eMin E) / 400)) ∧
      rowEnergy E 0 = 1 / 1000 * E.MeV ∧
      rowEnergy E 400 = 10 * E.MeV ∧
      (∀ i : Nat, rowEnergy E (i + 1) / rowEnergy E i = rowEnergy E 1 / rowEnergy E 0) ∧
      (∀ i j : Nat, i < j → rowEnergy E i < rowEnergy E j) := by
  have hmin : eMin E = 1 / 1000 * E.MeV := by rw [eMin_real E hA]; ring
  have hmax := eMax_real E hA
  have hquot : eMax E / eMin E = 10000 := by
    rw [hmin, hmax]
    field_simp
    ring
  have hlog : 0 < Real.log 10000 := Real.log_pos (by norm_num)
  have hrow := rowEnergy_real E hA hM
  have hpos : ∀ i : Nat, 0 < rowEnergy E i := by
    intro i
    rw [hrow]
    positivity
  have hstep : ∀ i : Nat, rowEnergy E (i + 1) = rowEnergy E i * Real.exp (Real.log 10000 / 400) := by
    intro i
    rw [hrow, hrow, mul_assoc, ← Real.exp_add]
    congr 2
    push_cast
    ring
  have hgt : 1 < Real.exp (Real.log 10000 / 400) := by
    rw [Real.one_lt_exp_iff]
    positivity
  have hmono : StrictMono (fun i : Nat => rowEnergy E i) := by
    apply strictMono_nat_of_lt_succ
    intro i
    show rowEnergy E i < rowEnergy E (i + 1)
    rw [hstep]
    have := hpos i
    nlinarith
  refine ⟨hmin, hmax, ?_, ?_, ?_, ?_, fun i j hij => hmono hij⟩
  · intro i
    have e : (i : ℝ) * Real.log 10000 / 400 = i * (Real.log 10000 / 400) := by ring
    rw [hrow, hquot, hmin, e]
    ring
  · rw [hrow]
    simp
    ring
  · rw [hrow]
    have : ((400 : ℕ) : ℝ) * (Real.log 10000 / 400) = Real.log 10000 := by
      push_cast
      ring
    rw [this, Real.exp_log (by norm_num)]
    ring
  · intro i
    have h0 := hpos 0
    have hi := hpos i
    rw [hstep i, hstep 0]
    field_simp

theorem energy_grid_logarithmic_witness :
    (realEngine [] (fun _ _ => 0)).arith = realArith ∧ 0 < (realEngine [] (fun _ _ => 0)).MeV ∧
      rowEnergy (realEngine [] (fun _ _ => 0)) 0 = 1 / 1000 * 1 ∧
      rowEnergy (realEngine [] (fun _ _ => 0)) 400 = 10 * 1 :=
  ⟨rfl, one_pos,
    (energy_grid_logarithmic (realEngine [] (fun _ _ => 0)) rfl one_pos).2.2.2.1,
    (energy_grid_logarithmic (realEngine [] (fun _ _ => 0)) rfl one_pos).2.2.2.2.1⟩

/-! ## The test of `main` -/

theorem Run.andThen_result_ok (r : Run) (k : parameters → Run) (q : parameters)
    (h : (r.andThen k).result = .ok q) : ∃ p, r.result = .ok p ∧ (k p).result = .ok q := by
  rw [Run.andThen_result] at h
  cases hres : r.result with
  | ok p =>
    rw [hres] at h
    exact ⟨p, rfl, h⟩
  | fault f =>
    rw [hres] at h
    cases h

theorem ifHelp_help (f : CStr) (p q : parameters) (hwf : p.WellFormed)
    (h : (ifHelp f p).result = .ok q) :
    cstr q.help = if isHelp f = true then "-h".toList else cstr p.help := by
  unfold ifHelp at h
  by_cases hf : isHelp f = true
  · have hs : strcpy .help p.help "-h".toList = .ok (strcpyCells p.help "-h".toList) :=
      strcpy_of_fits _ _ _ (by rw [hwf.1.1]; decide)
    simp only [hf, if_true, hs] at h ⊢
    injection h with h
    subst h
    exact cstr_strcpyCells _ _ (by decide)
  · simp only [hf, if_false, Bool.false_eq_true] at h ⊢
    injection h with h
    subst h
    rfl

theorem ifModel_help (i : Nat) (f : CStr) (v : Option CStr) (p q : parameters)
    (h : (ifModel i f v p).result = .ok q) : q.help = p.help := by
  unfold ifModel at h
  split at h
  · split at h
    · cases h
    · split at h
      · injection h with h
        subst h
        rfl
      · cases h
  · injection h with h
    subst h
    rfl

theorem ifEnergy_help (W : World) (i : Nat) (f : CStr) (v : Option CStr) (p q : parameters)
    (h : (ifEnergy W i f v p).result = .ok q) : q.help = p.help := by
  unfold ifEnergy at h
  split at h
  · split at h
    · cases h
    · split at h
      · injection h with h
        subst h
        rfl
      · cases h
  · injection h with h
    subst h
    rfl

theorem ifEvents_help (W : World) (i : Nat) (f : CStr) (v : Option CStr) (p q : parameters)
    (h : (ifEvents W i f v p).result = .ok q) : q.help = p.help := by
  unfold ifEvents at h
  split at h
  · split at h
    · cases h
    · split at h
      · injection h with h
        subst h
        rfl
      · cases h
  · injection h with h
    subst h
    rfl

theorem ifOutput_help (i : Nat) (f : CStr) (v : Option CStr) (p q : parameters)
    (h : (ifOutput i f v p).result = .ok q) : q.help = p.help := by
  unfold ifOutput at h
  split at h
  · split at h
    · cases h
    · split at h
      · injection h with h
        subst h
        rfl
      · cases h
  · injection h with h
    subst h
    rfl

/-- The help field after the body of the loop: `-h` on a help flag, else as
it was. -/
theorem getParamsBody_help (W : World) (i : Nat) (f : CStr) (v : Option CStr)
    (p q : parameters) (hwf : p.WellFormed) (h : (getParamsBody W i f v p).result = .ok q) :
    cstr q.help = if isHelp f = true then "-h".toList else cstr p.help := by
  rcases recognised_cases f with hf | hf | hf | hf | hf | hf
  · rw [body_help W i f v p hf, Run.andThen_ok] at h
    exact ifHelp_help f p q hwf h
  · rw [body_model W i f v p hf, Run.andThen_ok] at h
    rw [(model_excludes f hf).1, ifModel_help i f v p q h]
    rfl
  · rw [body_energy W i f v p hf, Run.andThen_ok] at h
    rw [(energy_excludes f hf).1, ifEnergy_help W i f v p q h]
    rfl
  · rw [body_events W i f v p hf, Run.andThen_ok] at h
    rw [(events_excludes f hf).1, ifEvents_help W i f v p q h]
    rfl
  · rw [body_output W i f v p hf, Run.andThen_ok] at h
    rw [(output_excludes f hf).1, ifOutput_help i f v p q h]
    rfl
  · rw [body_other W i f v p hf] at h
    injection h with h
    subst h
    rw [(recognised_eq_false f hf).1]
    rfl

/-- The help field after the loop: `-h` when a help flag stands at a flag
position, else as it was. -/
theorem getParamsLoop_help (W : World) (rest : List CStr) :
    ∀ (i : Nat) (p q : parameters), p.WellFormed → (getParamsLoop W i rest p).result = .ok q →
      cstr q.help = if (flagsOf rest).any isHelp = true then "-h".toList else cstr p.help := by
  refine two_step_induction (P := fun rest => ∀ (i : Nat) (p q : parameters), p.WellFormed →
    (getParamsLoop W i rest p).result = .ok q →
      cstr q.help = if (flagsOf rest).any isHelp = true then "-h".toList else cstr p.help)
    ?_ ?_ ?_ rest
  · intro i p q _ h
    injection h with h
    subst h
    rfl
  · intro a i p q hwf h
    rw [getParamsLoop_single] at h
    rw [getParamsBody_help W i a none p q hwf h]
    simp [flagsOf]
  · intro a b l ih i p q hwf h
    rw [getParamsLoop_pair] at h
    obtain ⟨c, hc, hq⟩ := Run.andThen_result_ok _ _ q h
    rw [ih (i + 2) c q (getParamsBody_wellFormed W i a (some b) p c hwf hc) hq,
      getParamsBody_help W i a (some b) p c hwf hc]
    by_cases ha : isHelp a = true <;> by_cases hl : (flagsOf l).any isHelp = true <;>
      simp [flagsOf, ha, hl]

/-- Help is requested, in the record, exactly when `-h` or `--help` stands at
a flag position. -/
theorem getParams_help (W : World) (argv : List CStr) (p : parameters)
    (h : (getParams W argv).result = .ok p) :
    (cstr p.help = "-h".toList ∨ cstr p.help = "--help".toList) ↔
      (flagsOf (argv.drop 1)).any isHelp = true := by
  have e := getParamsLoop_help W (argv.drop 1) 1 _ p (wellFormed_init W.stack) h
  rw [cstr_init_help] at e
  rw [e]
  by_cases hl : (flagsOf (argv.drop 1)).any isHelp = true
  · simp only [hl, if_true, true_or]
  · simp only [hl, if_false, Bool.false_eq_true, iff_false]
    decide

/-- C1. For a record returned by `getParams`, `main` only prints the usage
and returns -1, opening no file, exactly when help was requested (the help
field holds `-h` or `--help`, which it does exactly when one of them stands at
a flag position of `argv`), or the model name is empty, or `energy <= 0`, or
`events <= 0`, or the output path is empty. For every other record `main`
prints the parameters and opens the output file; when the file opens, the
header is written next, and when it does not, `main` reports it and exits. -/
theorem main_usage_iff {D : Type} (W : World) (E : Engine D) (argv : List CStr) (p : parameters)
    (h : (getParams W argv).result = .ok p) :
    (((main W E argv).trace = [.usage argv.head?] ∧ (main W E argv).exit = .returned (-1)) ↔
      ((cstr p.help = "-h".toList ∨ cstr p.help = "--help".toList) ∨
        cstr p.header.model = [] ∨ p.header.energy.leZero = true ∨ p.header.events ≤ 0 ∨
        cstr p.outputFile = [])) ∧
    ((cstr p.help = "-h".toList ∨ cstr p.help = "--help".toList) ↔
      (flagsOf (argv.drop 1)).any isHelp = true) ∧
    (¬ ((cstr p.help = "-h".toList ∨ cstr p.help = "--help".toList) ∨
        cstr p.header.model = [] ∨ p.header.energy.leZero = true ∨ p.header.events ≤ 0 ∨
        cstr p.outputFile = []) →
      ∃ rest, (main W E argv).trace =
          .printParams (cstr p.header.model) p.header.energy p.header.events (cstr p.outputFile) ::
            .fopen (cstr p.outputFile) "wb".toList :: rest ∧
        (W.canOpen (cstr p.outputFile) = true →
          ∃ rest', rest = .fwrite (headerBytes p.header) :: .fclose :: rest') ∧
        (W.canOpen (cstr p.outputFile) = false →
          rest = [.couldNotOpen (cstr p.outputFile)] ∧ (main W E argv).exit = .exited 1)) := by
  refine ⟨?_, getParams_help W argv p h, ?_⟩
  · rw [or_assoc, ← rejected_iff]
    by_cases hr : rejected p = true
    · simp [main, h, hr]
    · have hr' : rejected p = false := by simpa using hr
      have hm : main W E argv = mainRun W E p := by simp [main, h, hr']
      rw [hm]
      by_cases ho : W.canOpen (cstr p.outputFile) = true
      · by_cases ht : E.tableOpens (tableName (cstr p.header.model)) = true
        · simp [mainRun, ho, ht, hr']
        · simp [mainRun, ho, ht, hr']
      · simp [mainRun, ho, hr']
  · rw [or_assoc, ← rejected_iff]
    intro hr
    have hr' : rejected p = false := by simpa using hr
    have hm : main W E argv = mainRun W E p := by simp [main, h, hr']
    rw [hm]
    by_cases ho : W.canOpen (cstr p.outputFile) = true
    · by_cases ht : E.tableOpens (tableName (cstr p.header.model)) = true
      · simp [mainRun, ho, ht]
      · simp [mainRun, ho, ht]
    · simp [mainRun, ho]

theorem main_usage_iff_witness :
    (getParams exampleWorld ["prog".toList, "-n".toList, "0".toList]).result =
        .ok { parameters.init exampleWorld.stack with
          header := { (parameters.init exampleWorld.stack).header with events := 0 } } ∧
      (main exampleWorld exampleEngine ["prog".toList, "-n".toList, "0".toList]).trace =
        [.usage (some "prog".toList)] ∧
      (main exampleWorld exampleEngine ["prog".toList, "-n".toList, "0".toList]).exit =
        .returned (-1) :=
  ⟨rfl,
    (main_usage_iff exampleWorld exampleEngine ["prog".toList, "-n".toList, "0".toList] _ rfl).1.2
      (Or.inr (Or.inr (Or.inr (Or.inl (le_refl (0 : Int))))))⟩

end G4Goupil
